import Mathlib

/-!
Verification development for the repo-guardian reconciliation engine.

The Go sources are shallowly embedded: pure helpers become Lean functions,
the GitHub client is modelled as a record of response functions, and the
engine's side effects (branch / file / PR / property writes, metric
increments) are collected in an explicit trace list.  Machine integers are
modelled as `Int`; `time.Duration` values are `Int` nanoseconds;
`time.Time` values are `Int` nanoseconds since the Unix epoch.
-/

/-! ## String helpers

Structural-recursion models of the Go standard-library string functions the
sources use (`strings.ToLower`, `strings.Contains`, `strings.ReplaceAll`,
`strings.Cut`, `strconv.Atoi` / `strconv.ParseInt`).  They operate on the
underlying character list so that every definition reduces in the kernel.
Case folding is ASCII (`Char.toLower`), which agrees with `strings.ToLower`
on the ASCII rule search terms the engine uses. -/

/-- Model of `strings.ToLower` (ASCII case folding). -/
def goToLower (s : String) : String :=
  String.mk (s.data.map Char.toLower)

/-- Helper for `goContains`: does `needle` occur in the list? -/
def goContainsAux (needle : List Char) : List Char → Bool
  | [] => needle.isPrefixOf ([] : List Char)
  | c :: rest => needle.isPrefixOf (c :: rest) || goContainsAux needle rest

/-- Model of `strings.Contains s sub`. -/
def goContains (s sub : String) : Bool :=
  goContainsAux sub.data s.data

/-- Fuel-indexed helper for `goReplaceAll`; the fuel is the length of the
input, which bounds the number of steps since every step consumes at least
one character when the pattern is nonempty. -/
def goReplaceAux (pat rep : List Char) : Nat → List Char → List Char
  | 0, s => s
  | _, [] => []
  | fuel + 1, c :: rest =>
    if pat ≠ [] ∧ pat.isPrefixOf (c :: rest) then
      rep ++ goReplaceAux pat rep fuel (List.drop (pat.length - 1) rest)
    else
      c :: goReplaceAux pat rep fuel rest

/-- Model of `strings.ReplaceAll s pat rep` for nonempty patterns: replaces
the leftmost non-overlapping occurrences.  All call sites in the sources
pass nonempty literal placeholders. -/
def goReplaceAll (s pat rep : String) : String :=
  String.mk (goReplaceAux pat.data rep.data s.data.length s.data)

/-- Helper for `strings.Cut fullName "/"`: the characters before the first
slash (the whole string when no slash occurs). -/
def takeUntilSlash : List Char → List Char
  | [] => []
  | c :: rest => if c = '/' then [] else c :: takeUntilSlash rest

/-- Digit-string accumulator for `goAtoi`. -/
def digitsToNatAux (acc : Nat) : List Char → Option Nat
  | [] => some acc
  | c :: rest =>
    if c.isDigit then digitsToNatAux (acc * 10 + (c.toNat - '0'.toNat)) rest
    else none

/-- Parse a nonempty all-digit string. -/
def digitsToNat (l : List Char) : Option Nat :=
  match l with
  | [] => none
  | _ => digitsToNatAux 0 l

/-- Model of `strconv.Atoi` / `strconv.ParseInt` (base 10); the 64-bit
range check is not modelled, which is irrelevant to the header values the
middleware reads. -/
def goAtoi (s : String) : Option Int :=
  match s.data with
  | [] => none
  | '+' :: rest => (digitsToNat rest).map Int.ofNat
  | '-' :: rest => (digitsToNat rest).map (fun n => -(Int.ofNat n))
  | l => (digitsToNat l).map Int.ofNat

/-- Lookup in an association list with the Go map zero-value default `""`.
Used for HTTP headers and YAML annotation maps. -/
def lookupDefault (l : List (String × String)) (k : String) : String :=
  match l.find? (fun p => p.1 == k) with
  | some p => p.2
  | none => ""

/-! ## Catalog parser

Embedding of the `catalog` package (`Parse`, source shown in
`docs`/`src/unnamed/part_004`).  The external YAML library
(`yaml.Unmarshal`) is abstracted as a function
`String → Option Entity`: `none` models an unmarshal error, `some`
the decoded entity (Go's zero values fill absent fields). -/

namespace Catalog

/-- Metadata section of a Backstage entity (`metadata:` in YAML). -/
structure Metadata where
  name : String
  annots : List (String × String)
  deriving DecidableEq

/-- Spec section of a Backstage Component entity. -/
structure Spec where
  owner : String
  lifecycle : String
  typeName : String
  system : String
  deriving DecidableEq

/-- A decoded `catalog-info.yaml` document. -/
structure Entity where
  apiVersion : String
  kind : String
  metadata : Metadata
  spec : Spec
  deriving DecidableEq

/-- The extracted custom property values. -/
structure Properties where
  owner : String
  component : String
  jiraProject : String
  jiraLabel : String
  deriving DecidableEq

def DefaultOwner : String := "Unclassified"

def DefaultComponent : String := "Unclassified"

/-- The Go `defaults()` helper: `Unclassified` owner and component, empty
Jira fields (Go zero values). -/
def defaults : Properties :=
  { owner := DefaultOwner, component := DefaultComponent,
    jiraProject := "", jiraLabel := "" }

/-- The Go zero value of `Entity`, which `yaml.Unmarshal` leaves in place
for inputs that decode to nothing (for example the empty string). -/
def zeroEntity : Entity :=
  { apiVersion := "", kind := "",
    metadata := { name := "", annots := [] },
    spec := { owner := "", lifecycle := "", typeName := "", system := "" } }

/-- Embedding of `catalog.Parse`.  `unmarshal` abstracts `yaml.Unmarshal`. -/
def Parse (unmarshal : String → Option Entity) (content : String) : Properties :=
  match unmarshal content with
  | none => defaults
  | some entity =>
    if entity.apiVersion != "backstage.io/v1alpha1" || entity.kind != "Component" then
      defaults
    else
      let p : Properties :=
        { owner := entity.spec.owner,
          component := entity.metadata.name,
          jiraProject := lookupDefault entity.metadata.annots "jira/project-key",
          jiraLabel := lookupDefault entity.metadata.annots "jira/label" }
      let p := if p.owner == "" then { p with owner := DefaultOwner } else p
      let p := if p.component == "" then { p with component := DefaultComponent } else p
      p

end Catalog

/-! ## Rate-limit middleware

Embedding of `internal/github/github.go` (`rateLimitTransport`).
Durations and instants are `Int` nanoseconds.  `float64` threshold
arithmetic is modelled with exact rationals; the Go `int(...)` conversion
truncates toward zero, modelled by `goIntTrunc`. -/

namespace Github

def nsPerSecond : Int := 1000000000

/-- An HTTP response: status code and headers. -/
structure Response where
  status : Nat
  headers : List (String × String)
  deriving DecidableEq

/-- Embedding of `rateLimitTransport.isRateLimited`: a 403 whose
`X-RateLimit-Remaining` is `0` (primary) or that carries a `Retry-After`
header (secondary). -/
def isRateLimited (resp : Response) : Bool :=
  resp.status == 403 &&
    (lookupDefault resp.headers "X-RateLimit-Remaining" == "0" ||
     lookupDefault resp.headers "Retry-After" != "")

/-- Embedding of `rateLimitTransport.rateLimitDelay`: the pre-retry sleep
in nanoseconds, given the current instant `now`. -/
def rateLimitDelay (now : Int) (resp : Response) : Int :=
  let raBranch : Option Int :=
    let retryAfter := lookupDefault resp.headers "Retry-After"
    if retryAfter != "" then
      match goAtoi retryAfter with
      | some seconds => if seconds > 0 then some (seconds * nsPerSecond) else none
      | none => none
    else none
  match raBranch with
  | some d => d
  | none =>
    let resetBranch : Option Int :=
      let reset := lookupDefault resp.headers "X-RateLimit-Reset"
      if reset != "" then
        match goAtoi reset with
        | some resetUnix =>
          let delay := resetUnix * nsPerSecond - now
          if delay > 0 then some delay else none
        | none => none
      else none
    match resetBranch with
    | some d => d
    | none => nsPerSecond

/-- Embedding of `rateLimitTransport.rateLimitReason`. -/
def rateLimitReason (resp : Response) : String :=
  if lookupDefault resp.headers "Retry-After" != "" then "secondary" else "primary"

/-- Embedding of `rateLimitTransport.RoundTrip`, as a function of the
underlying transport's behaviour.  `next i` is the response of the
transport's `(i+1)`-th invocation (`none` models a transport error);
`preWaitOk` is whether the pre-emptive `waitIfNeeded` sleep completed
without cancellation, `retrySleepOk` likewise for the retry sleep, and
`getBody` models `req.GetBody` (`none` = no body factory, `some b` = a
factory whose call succeeds iff `b`).  The result pairs the response
returned to the caller (`none` = error) with the number of calls made to
the underlying transport. -/
def roundTrip (preWaitOk retrySleepOk : Bool) (getBody : Option Bool)
    (next : Nat → Option Response) : Option Response × Nat :=
  if !preWaitOk then (none, 0)
  else
    match next 0 with
    | none => (none, 1)
    | some resp =>
      if !isRateLimited resp then (some resp, 1)
      else
        if !retrySleepOk then (none, 1)
        else
          match getBody with
          | some false => (none, 1)
          | _ =>
            match next 1 with
            | none => (none, 2)
            | some retryResp => (some retryResp, 2)

/-- The rate-limit state tracked per transport (`limit`, `remaining`,
`resetAt` in ns since epoch). -/
structure RateState where
  limit : Int
  remaining : Int
  resetAt : Int
  deriving DecidableEq

/-- The Go `int(x)` conversion from `float64`: truncation toward zero. -/
def goIntTrunc (q : ℚ) : Int :=
  if 0 ≤ q then ⌊q⌋ else ⌈q⌉

/-- Embedding of `rateLimitTransport.waitIfNeeded`: `none` means no
pre-emptive sleep happens, `some d` means the middleware sleeps `d`
nanoseconds.  `float64(limit) * threshold` is modelled with exact rational
arithmetic. -/
def waitIfNeeded (threshold : ℚ) (st : RateState) (now : Int) : Option Int :=
  if st.limit == 0 then none
  else
    let thresholdCount : Int := goIntTrunc ((st.limit : ℚ) * threshold)
    if st.remaining > thresholdCount then none
    else
      let untilReset := st.resetAt - now
      if untilReset ≤ 0 then none
      else
        let delay := if st.remaining == 0 then untilReset else untilReset.tdiv st.remaining
        some (if delay < nsPerSecond then nsPerSecond else delay)

end Github

/-! ## Webhook fan-in

Embedding of `internal/webhook` (`Handler.ServeHTTP`).  The external
go-github helpers are abstracted: `signatureValid` is the outcome of
`gh.ValidatePayload` against the configured secret, `parsedEvent` the
outcome of `gh.ParseWebHook` (`none` = parse error). -/

namespace Webhook

inductive Trigger where
  | webhook
  | scheduler
  | manual
  deriving DecidableEq

/-- A repository check job (`checker.RepoJob`). -/
structure RepoJob where
  owner : String
  repo : String
  installationID : Int
  trigger : Trigger
  deriving DecidableEq

/-- A repository reference as it appears inside webhook event payloads. -/
structure EventRepo where
  fullName : String
  name : String
  deriving DecidableEq

/-- The webhook events the handler distinguishes. -/
inductive Event where
  | repositoryEvent (action ownerLogin repoName : String) (installationID : Int)
  | installationRepositoriesEvent (action : String) (repositoriesAdded : List EventRepo)
      (installationID : Int)
  | installationEvent (action : String) (repositories : List EventRepo)
      (installationID : Int)
  | otherEvent
  deriving DecidableEq

/-- An inbound HTTP request, with the externally-determined validation and
parse outcomes. -/
structure Request where
  method : String
  signatureValid : Bool
  parsedEvent : Option Event

/-- Embedding of `extractOwner`: the owner part of an `owner/repo` full
name (`strings.Cut` on the first slash). -/
def extractOwner (fullName : String) : String :=
  String.mk (takeUntilSlash fullName.data)

/-- Jobs enqueued by `handleRepositoryEvent`. -/
def handleRepositoryEvent (action ownerLogin repoName : String)
    (installationID : Int) : List RepoJob :=
  if action == "created" then
    [{ owner := ownerLogin, repo := repoName, installationID := installationID,
       trigger := Trigger.webhook }]
  else []

/-- Jobs enqueued by `handleInstallationRepositoriesEvent`. -/
def handleInstallationRepositoriesEvent (action : String)
    (repositoriesAdded : List EventRepo) (installationID : Int) : List RepoJob :=
  if action == "added" then
    repositoriesAdded.map (fun r =>
      { owner := extractOwner r.fullName, repo := r.name,
        installationID := installationID, trigger := Trigger.webhook })
  else []

/-- Jobs enqueued by `handleInstallationEvent`. -/
def handleInstallationEvent (action : String) (repositories : List EventRepo)
    (installationID : Int) : List RepoJob :=
  if action == "created" then
    repositories.map (fun r =>
      { owner := extractOwner r.fullName, repo := r.name,
        installationID := installationID, trigger := Trigger.webhook })
  else []

/-- Embedding of `Handler.ServeHTTP`: the HTTP status written and the list
of jobs the handler passes to `queue.Enqueue` (enqueue failures are logged
in Go but the calls are what the list records). -/
def serveHTTP (req : Request) : Nat × List RepoJob :=
  if req.method != "POST" then (405, [])
  else if !req.signatureValid then (401, [])
  else
    match req.parsedEvent with
    | none => (400, [])
    | some ev =>
      match ev with
      | Event.repositoryEvent action ownerLogin repoName instID =>
        (200, handleRepositoryEvent action ownerLogin repoName instID)
      | Event.installationRepositoriesEvent action added instID =>
        (200, handleInstallationRepositoriesEvent action added instID)
      | Event.installationEvent action repos instID =>
        (200, handleInstallationEvent action repos instID)
      | Event.otherEvent => (204, [])

end Webhook

/-! ## Compliance engine

Embedding of `internal/checker` (`engine.go`, `properties.go`).  The
GitHub client (`internal/github.Client`) is modelled as a record of
response functions, following the fixed-response mock client the package's
own tests use; `Except String` models Go's `(value, error)` returns, with
wrapped error messages passed through.  Every call the engine makes to a
mutating client operation, and every metric increment the claims mention,
is recorded in an `Effect` trace in call order. -/

namespace Checker

/-- A GitHub pull request (`github.PullRequest`). -/
structure PullRequest where
  number : Int
  title : String
  head : String
  state : String
  deriving DecidableEq

/-- GitHub repository metadata (`github.Repository`). -/
structure Repository where
  owner : String
  name : String
  archived : Bool
  fork : Bool
  hasBranch : Bool
  defaultRef : String
  deriving DecidableEq

/-- A repository custom property (`github.CustomPropertyValue`). -/
structure CustomPropertyValue where
  propertyName : String
  value : String
  deriving DecidableEq

/-- A file compliance rule (`rules.FileRule`). -/
structure FileRule where
  name : String
  paths : List String
  prSearchTerms : List String
  defaultTemplateName : String
  targetPath : String
  enabled : Bool
  deriving DecidableEq

/-- Embedding of `rules.Registry.EnabledRules`: the enabled rules in
registry order. -/
def EnabledRules (registry : List FileRule) : List FileRule :=
  registry.filter (fun r => r.enabled)

/-- The calls the engine makes that mutate GitHub state, plus the metric
increments the specification's claims mention, in call order. -/
inductive Effect where
  | createBranch (owner repo branch baseSHA : String)
  | deleteBranch (owner repo branch : String)
  | createOrUpdateFile (owner repo branch path content message : String)
  | createPullRequest (owner repo title body head base : String)
  | setCustomPropertyValues (owner repo : String) (props : List CustomPropertyValue)
  | incFilesMissing (ruleName : String)
  | incPRsCreated
  | incPRsUpdated
  | incPropertiesChecked
  | incPropertiesAlreadyCorrect
  | incPropertiesSet
  | incPropertiesPRsCreated
  deriving DecidableEq

/-- The GitHub client, modelled as fixed response functions (the same shape
as the package's mock client): reads return `Except`-wrapped values, and
mutating operations return the success or failure of the call.  The
engine's own writes within a pass are never read back by the engine, so
fixed responses are faithful for a single `CheckRepo` run. -/
structure Client where
  getContents : String → String → String → Except String Bool
  listOpenPullRequests : String → String → Except String (List PullRequest)
  getRepository : String → String → Except String Repository
  getBranchSHA : String → String → String → Except String String
  createBranch : String → String → String → String → Except String Unit
  deleteBranch : String → String → String → Except String Unit
  createOrUpdateFile : String → String → String → String → String → String → Except String Unit
  createPullRequest : String → String → String → String → String → String → Except String PullRequest
  getFileContent : String → String → String → Except String String
  getCustomPropertyValues : String → String → Except String (List CustomPropertyValue)
  setCustomPropertyValues : String → String → List CustomPropertyValue → Except String Unit

/-- The checker engine's configuration (`checker.Engine`).  `templates`
models `rules.TemplateStore.Get`; `yamlUnmarshal` models the external YAML
library used by `catalog.Parse`. -/
structure Engine where
  registry : List FileRule
  templates : String → Except String String
  skipForks : Bool
  skipArchived : Bool
  dryRun : Bool
  customPropertiesMode : String
  yamlUnmarshal : String → Option Catalog.Entity

def BranchName : String := "repo-guardian/add-missing-files"

def PRTitle : String := "chore: add missing repo configuration files"

def PropertiesBranchName : String := "repo-guardian/set-custom-properties"

def CatalogInfoBranchName : String := "repo-guardian/add-catalog-info"

def PropertiesPRTitle : String := "chore: set repository custom properties"

def CatalogInfoPRTitle : String := "chore: add catalog-info.yaml"

/-- Embedding of `Engine.shouldSkip` (the skip reason strings are not
modelled). -/
def shouldSkip (e : Engine) (repo : Repository) : Bool :=
  (e.skipArchived && repo.archived) ||
  (e.skipForks && repo.fork) ||
  (!repo.hasBranch || repo.defaultRef == "")

/-- Embedding of `checkFileExists`'s loop over the rule's candidate
paths. -/
def checkFileExistsAux (c : Client) (owner repo : String) :
    List String → Except String Bool
  | [] => Except.ok false
  | path :: rest =>
    match c.getContents owner repo path with
    | Except.error err => Except.error ("checking " ++ path ++ ": " ++ err)
    | Except.ok ex => if ex then Except.ok true else checkFileExistsAux c owner repo rest

/-- Embedding of `checkFileExists`. -/
def checkFileExists (c : Client) (owner repo : String) (rule : FileRule) :
    Except String Bool :=
  checkFileExistsAux c owner repo rule.paths

/-- Embedding of `hasExistingPR`: some open PR's lower-cased title or head
branch contains some lower-cased search term of the rule. -/
def hasExistingPR (openPRs : List PullRequest) (rule : FileRule) : Bool :=
  openPRs.any (fun pr =>
    rule.prSearchTerms.any (fun term =>
      goContains (goToLower pr.title) (goToLower term) ||
      goContains (goToLower pr.head) (goToLower term)))

/-- Embedding of the loop body of `Engine.findMissingFiles`; the per-rule
`files_missing_total` increment is recorded before the loop continues, so
it survives a later rule's error as in Go. -/
def findMissingFilesAux (c : Client) (owner repo : String)
    (openPRs : List PullRequest) :
    List FileRule → Except String (List FileRule) × List Effect
  | [] => (Except.ok [], [])
  | rule :: rest =>
    match checkFileExists c owner repo rule with
    | Except.error err =>
      (Except.error ("checking file existence for rule " ++ rule.name ++ ": " ++ err), [])
    | Except.ok ex =>
      if ex then findMissingFilesAux c owner repo openPRs rest
      else if hasExistingPR openPRs rule then findMissingFilesAux c owner repo openPRs rest
      else
        match findMissingFilesAux c owner repo openPRs rest with
        | (res, tr) =>
          (res.map (fun missing => rule :: missing), Effect.incFilesMissing rule.name :: tr)

/-- Embedding of `Engine.findMissingFiles`. -/
def findMissingFiles (e : Engine) (c : Client) (owner repo : String)
    (openPRs : List PullRequest) : Except String (List FileRule) × List Effect :=
  findMissingFilesAux c owner repo openPRs (EnabledRules e.registry)

/-- Embedding of `findOurPR`. -/
def findOurPR (openPRs : List PullRequest) : Option PullRequest :=
  openPRs.find? (fun pr => pr.head == BranchName)

/-- Embedding of `findPropertiesPR`. -/
def findPropertiesPR (openPRs : List PullRequest) (branchName : String) :
    Option PullRequest :=
  openPRs.find? (fun pr => pr.head == branchName)

/-- Embedding of `BuildPRBody`. -/
def BuildPRBody (missing : List FileRule) : String :=
  "## Repo Guardian — Missing Configuration Files\n\n" ++
  "This PR was automatically created by **repo-guardian** because the following\n" ++
  "required configuration files were not found in this repository:\n\n" ++
  "### Added Files\n\n" ++
  String.join (missing.map (fun rule => "- `" ++ rule.targetPath ++ "` — " ++ rule.name ++ "\n")) ++
  "\n> **Note:** The CODEOWNERS file contains a placeholder (`@org/CHANGEME`).\n" ++
  "> Please replace it with your actual team before merging.\n\n" ++
  "### What to do\n\n" ++
  "1. Review the default file contents and adjust for your team's needs.\n" ++
  "2. Merge when ready — these are sensible defaults, not one-size-fits-all.\n\n" ++
  "---\n" ++
  "*Automated by [repo-guardian](https://github.com/apps/repo-guardian). " ++
  "Questions? Reach out in #platform-engineering.*\n"

/-- Embedding of `renderTemplate`: sequential `strings.ReplaceAll` of each
placeholder.  The Go code iterates a map whose order is unspecified; the
replacement lists passed at the call sites are in the source literal
order. -/
def renderTemplate (content : String) (replacements : List (String × String)) : String :=
  replacements.foldl (fun result p => goReplaceAll result p.1 p.2) content

/-- Embedding of `desiredToPropertyValues`: Owner and Component always,
Jira fields only when the desired value is nonempty. -/
def desiredToPropertyValues (desired : Catalog.Properties) : List CustomPropertyValue :=
  ([{ propertyName := "Owner", value := desired.owner },
    { propertyName := "Component", value := desired.component }] : List CustomPropertyValue) ++
  (if desired.jiraProject != "" then
    [{ propertyName := "JiraProject", value := desired.jiraProject }] else []) ++
  (if desired.jiraLabel != "" then
    [{ propertyName := "JiraLabel", value := desired.jiraLabel }] else [])

/-- Embedding of `writePropertyList`. -/
def writePropertyList (props : Option Catalog.Properties) : String :=
  match props with
  | none => ""
  | some p =>
    "- **Owner:** `" ++ p.owner ++ "`\n" ++
    "- **Component:** `" ++ p.component ++ "`\n" ++
    (if p.jiraProject != "" then "- **JiraProject:** `" ++ p.jiraProject ++ "`\n" else "") ++
    (if p.jiraLabel != "" then "- **JiraLabel:** `" ++ p.jiraLabel ++ "`\n" else "")

/-- Embedding of `buildGHABody`. -/
def buildGHABody (props : Option Catalog.Properties) : String :=
  "## Repo Guardian — Set Custom Properties\n\n" ++
  "This PR was automatically created by **repo-guardian** to set repository\n" ++
  "custom properties via a GitHub Actions workflow.\n\n" ++
  "### Properties to be set\n\n" ++
  writePropertyList props ++
  "\n### What happens when merged\n\n" ++
  "The included GitHub Actions workflow runs once on push to `main` and sets\n" ++
  "the above custom properties on this repository. The workflow can be safely\n" ++
  "deleted after it runs.\n\n"

/-- Embedding of `buildCatalogInfoBody`. -/
def buildCatalogInfoBody : String :=
  "## Repo Guardian — Add catalog-info.yaml\n\n" ++
  "This PR was automatically created by **repo-guardian** because this\n" ++
  "repository is missing a `catalog-info.yaml` file.\n\n" ++
  "### What to do\n\n" ++
  "1. Fill in the `TODO` placeholders with your team's information.\n" ++
  "2. Review and merge when ready.\n\n" ++
  "Once merged, repo-guardian will read the file on the next reconciliation\n" ++
  "cycle and update custom properties with the correct values.\n\n"

/-- Embedding of `buildPropertiesPRBody`. -/
def buildPropertiesPRBody (props : Option Catalog.Properties) (mode : String) : String :=
  (if mode == "github-action" then buildGHABody props else buildCatalogInfoBody) ++
  "---\n" ++
  "*Automated by [repo-guardian](https://github.com/apps/repo-guardian). " ++
  "Questions? Reach out in #platform-engineering.*\n"

/-- Embedding of `currentMap` construction in `diffProperties`: the Go map
is filled by a loop, so a later duplicate name wins; a missing name reads
as the zero value `""`. -/
def currentMapGet (current : List CustomPropertyValue) (name : String) : String :=
  current.foldl (fun acc p => if p.propertyName == name then p.value else acc) ""

/-- Embedding of `diffProperties`: true when some desired property differs
from the current value, Jira fields compared only when the desired value is
nonempty. -/
def diffProperties (desired : Catalog.Properties)
    (current : List CustomPropertyValue) : Bool :=
  if currentMapGet current "Owner" != desired.owner then true
  else if currentMapGet current "Component" != desired.component then true
  else if desired.jiraProject != "" && currentMapGet current "JiraProject" != desired.jiraProject then true
  else if desired.jiraLabel != "" && currentMapGet current "JiraLabel" != desired.jiraLabel then true
  else false

/-- Embedding of `Engine.cleanupStaleBranch`: delete the branch when it
exists.  (Its callers establish that no open PR uses it.) -/
def cleanupStaleBranch (c : Client) (owner repo branchName : String) :
    Except String Unit × List Effect :=
  match c.getBranchSHA owner repo branchName with
  | Except.error err =>
    (Except.error ("checking for existing branch " ++ branchName ++ ": " ++ err), [])
  | Except.ok branchSHA =>
    if branchSHA != "" then
      match c.deleteBranch owner repo branchName with
      | Except.error err =>
        (Except.error ("deleting stale branch " ++ branchName ++ ": " ++ err),
         [Effect.deleteBranch owner repo branchName])
      | Except.ok _ => (Except.ok (), [Effect.deleteBranch owner repo branchName])
    else (Except.ok (), [])

/-- Embedding of the file-commit loop of `Engine.createOrUpdatePR`. -/
def commitMissingFiles (e : Engine) (c : Client) (owner repo : String) :
    List FileRule → Except String Unit × List Effect
  | [] => (Except.ok (), [])
  | rule :: rest =>
    match e.templates rule.defaultTemplateName with
    | Except.error err =>
      (Except.error ("getting template for " ++ rule.name ++ ": " ++ err), [])
    | Except.ok content =>
      let msg := "chore: add " ++ rule.targetPath
      match c.createOrUpdateFile owner repo BranchName rule.targetPath content msg with
      | Except.error err =>
        (Except.error ("creating file " ++ rule.targetPath ++ ": " ++ err),
         [Effect.createOrUpdateFile owner repo BranchName rule.targetPath content msg])
      | Except.ok _ =>
        match commitMissingFiles e c owner repo rest with
        | (res, tr) =>
          (res, Effect.createOrUpdateFile owner repo BranchName rule.targetPath content msg :: tr)

/-- Tail of `Engine.createOrUpdatePR` after the branch step: commit each
missing file and then create the PR (when none of ours is open) or count an
update of the existing one. -/
def commitAndPR (e : Engine) (c : Client) (owner repo defaultBranch : String)
    (missing : List FileRule) (existingPR : Option PullRequest) :
    Except String Unit × List Effect :=
  match commitMissingFiles e c owner repo missing with
  | (Except.error err, tr) => (Except.error err, tr)
  | (Except.ok _, tr) =>
    match existingPR with
    | none =>
      let body := BuildPRBody missing
      match c.createPullRequest owner repo PRTitle body BranchName defaultBranch with
      | Except.error err =>
        (Except.error ("creating PR: " ++ err),
         tr ++ [Effect.createPullRequest owner repo PRTitle body BranchName defaultBranch])
      | Except.ok _ =>
        (Except.ok (),
         tr ++ [Effect.createPullRequest owner repo PRTitle body BranchName defaultBranch,
                Effect.incPRsCreated])
    | some _ => (Except.ok (), tr ++ [Effect.incPRsUpdated])

/-- Tail of `Engine.createOrUpdatePR` after the stale-branch cleanup: fetch
the default-branch SHA, create the branch when absent, then commit the
missing files and create or update the PR. -/
def createOrUpdatePRFromBase (e : Engine) (c : Client)
    (owner repo defaultBranch : String) (missing : List FileRule)
    (existingPR : Option PullRequest) (branchSHA : String) :
    Except String Unit × List Effect :=
  match c.getBranchSHA owner repo defaultBranch with
  | Except.error err => (Except.error ("getting default branch SHA: " ++ err), [])
  | Except.ok baseSHA =>
    if baseSHA == "" then
      (Except.error ("default branch " ++ defaultBranch ++ " has no SHA"), [])
    else
      if branchSHA == "" then
        match c.createBranch owner repo BranchName baseSHA with
        | Except.error err =>
          (Except.error ("creating branch: " ++ err),
           [Effect.createBranch owner repo BranchName baseSHA])
        | Except.ok _ =>
          match commitAndPR e c owner repo defaultBranch missing existingPR with
          | (res, tr) => (res, Effect.createBranch owner repo BranchName baseSHA :: tr)
      else commitAndPR e c owner repo defaultBranch missing existingPR

/-- Embedding of `Engine.createOrUpdatePR`. -/
def createOrUpdatePR (e : Engine) (c : Client) (owner repo defaultBranch : String)
    (missing : List FileRule) (openPRs : List PullRequest) :
    Except String Unit × List Effect :=
  match c.getBranchSHA owner repo BranchName with
  | Except.error err => (Except.error ("checking for existing branch: " ++ err), [])
  | Except.ok branchSHA =>
    let existingPR := findOurPR openPRs
    if branchSHA != "" && existingPR.isNone then
      match c.deleteBranch owner repo BranchName with
      | Except.error err =>
        (Except.error ("deleting stale branch: " ++ err),
         [Effect.deleteBranch owner repo BranchName])
      | Except.ok _ =>
        match createOrUpdatePRFromBase e c owner repo defaultBranch missing existingPR "" with
        | (res, tr) => (res, Effect.deleteBranch owner repo BranchName :: tr)
    else createOrUpdatePRFromBase e c owner repo defaultBranch missing existingPR branchSHA

/-- Embedding of `Engine.handleGHAMode`. -/
def handleGHAMode (e : Engine) (c : Client) (owner repo defaultBranch : String)
    (desired : Catalog.Properties) (openPRs : List PullRequest) :
    Except String Unit × List Effect :=
  match findPropertiesPR openPRs PropertiesBranchName with
  | some _ => (Except.ok (), [])
  | none =>
    if e.dryRun then (Except.ok (), [])
    else
      match cleanupStaleBranch c owner repo PropertiesBranchName with
      | (Except.error err, tr) => (Except.error err, tr)
      | (Except.ok _, tr) =>
        match e.templates "set-custom-properties" with
        | Except.error err =>
          (Except.error ("getting set-custom-properties template: " ++ err), tr)
        | Except.ok tmplContent =>
          let rendered := renderTemplate tmplContent
            [("OWNER_VALUE", desired.owner), ("COMPONENT_VALUE", desired.component),
             ("JIRA_PROJECT_VALUE", desired.jiraProject), ("JIRA_LABEL_VALUE", desired.jiraLabel)]
          match c.getBranchSHA owner repo defaultBranch with
          | Except.error err => (Except.error ("getting default branch SHA: " ++ err), tr)
          | Except.ok baseSHA =>
            if baseSHA == "" then
              (Except.error ("default branch " ++ defaultBranch ++ " has no SHA"), tr)
            else
              match c.createBranch owner repo PropertiesBranchName baseSHA with
              | Except.error err =>
                (Except.error ("creating properties branch: " ++ err),
                 tr ++ [Effect.createBranch owner repo PropertiesBranchName baseSHA])
              | Except.ok _ =>
                let commitMsg := "chore: add workflow to set custom properties"
                let targetPath := ".github/workflows/set-custom-properties.yml"
                match c.createOrUpdateFile owner repo PropertiesBranchName targetPath rendered commitMsg with
                | Except.error err =>
                  (Except.error ("creating workflow file: " ++ err),
                   tr ++ [Effect.createBranch owner repo PropertiesBranchName baseSHA,
                          Effect.createOrUpdateFile owner repo PropertiesBranchName targetPath rendered commitMsg])
                | Except.ok _ =>
                  let body := buildPropertiesPRBody (some desired) "github-action"
                  match c.createPullRequest owner repo PropertiesPRTitle body PropertiesBranchName defaultBranch with
                  | Except.error err =>
                    (Except.error ("creating properties PR: " ++ err),
                     tr ++ [Effect.createBranch owner repo PropertiesBranchName baseSHA,
                            Effect.createOrUpdateFile owner repo PropertiesBranchName targetPath rendered commitMsg,
                            Effect.createPullRequest owner repo PropertiesPRTitle body PropertiesBranchName defaultBranch])
                  | Except.ok _ =>
                    (Except.ok (),
                     tr ++ [Effect.createBranch owner repo PropertiesBranchName baseSHA,
                            Effect.createOrUpdateFile owner repo PropertiesBranchName targetPath rendered commitMsg,
                            Effect.createPullRequest owner repo PropertiesPRTitle body PropertiesBranchName defaultBranch,
                            Effect.incPropertiesPRsCreated])

/-- Embedding of `Engine.createCatalogInfoPR`. -/
def createCatalogInfoPR (e : Engine) (c : Client) (owner repo defaultBranch : String)
    (openPRs : List PullRequest) : Except String Unit × List Effect :=
  match findPropertiesPR openPRs CatalogInfoBranchName with
  | some _ => (Except.ok (), [])
  | none =>
    if e.dryRun then (Except.ok (), [])
    else
      match cleanupStaleBranch c owner repo CatalogInfoBranchName with
      | (Except.error err, tr) => (Except.error err, tr)
      | (Except.ok _, tr) =>
        match e.templates "catalog-info" with
        | Except.error err =>
          (Except.error ("getting catalog-info template: " ++ err), tr)
        | Except.ok tmplContent =>
          let rendered := renderTemplate tmplContent
            [("REPO_NAME", repo), ("ORG_NAME", owner)]
          match c.getBranchSHA owner repo defaultBranch with
          | Except.error err => (Except.error ("getting default branch SHA: " ++ err), tr)
          | Except.ok baseSHA =>
            if baseSHA == "" then
              (Except.error ("default branch " ++ defaultBranch ++ " has no SHA"), tr)
            else
              match c.createBranch owner repo CatalogInfoBranchName baseSHA with
              | Except.error err =>
                (Except.error ("creating catalog-info branch: " ++ err),
                 tr ++ [Effect.createBranch owner repo CatalogInfoBranchName baseSHA])
              | Except.ok _ =>
                let commitMsg := "chore: add catalog-info.yaml"
                match c.createOrUpdateFile owner repo CatalogInfoBranchName "catalog-info.yaml" rendered commitMsg with
                | Except.error err =>
                  (Except.error ("creating catalog-info.yaml: " ++ err),
                   tr ++ [Effect.createBranch owner repo CatalogInfoBranchName baseSHA,
                          Effect.createOrUpdateFile owner repo CatalogInfoBranchName "catalog-info.yaml" rendered commitMsg])
                | Except.ok _ =>
                  let body := buildPropertiesPRBody none "api"
                  match c.createPullRequest owner repo CatalogInfoPRTitle body CatalogInfoBranchName defaultBranch with
                  | Except.error err =>
                    (Except.error ("creating catalog-info PR: " ++ err),
                     tr ++ [Effect.createBranch owner repo CatalogInfoBranchName baseSHA,
                            Effect.createOrUpdateFile owner repo CatalogInfoBranchName "catalog-info.yaml" rendered commitMsg,
                            Effect.createPullRequest owner repo CatalogInfoPRTitle body CatalogInfoBranchName defaultBranch])
                  | Except.ok _ =>
                    (Except.ok (),
                     tr ++ [Effect.createBranch owner repo CatalogInfoBranchName baseSHA,
                            Effect.createOrUpdateFile owner repo CatalogInfoBranchName "catalog-info.yaml" rendered commitMsg,
                            Effect.createPullRequest owner repo CatalogInfoPRTitle body CatalogInfoBranchName defaultBranch,
                            Effect.incPropertiesPRsCreated])

/-- Embedding of `Engine.handleAPIMode`. -/
def handleAPIMode (e : Engine) (c : Client) (owner repo defaultBranch : String)
    (desired : Catalog.Properties) (catalogFound : Bool)
    (openPRs : List PullRequest) : Except String Unit × List Effect :=
  if e.dryRun then (Except.ok (), [])
  else
    let props := desiredToPropertyValues desired
    match c.setCustomPropertyValues owner repo props with
    | Except.error err =>
      (Except.error ("setting custom properties: " ++ err),
       [Effect.setCustomPropertyValues owner repo props])
    | Except.ok _ =>
      if !catalogFound then
        match createCatalogInfoPR e c owner repo defaultBranch openPRs with
        | (res, tr) =>
          (res, Effect.setCustomPropertyValues owner repo props ::
                Effect.incPropertiesSet :: tr)
      else
        (Except.ok (),
         [Effect.setCustomPropertyValues owner repo props, Effect.incPropertiesSet])

/-- Tail of `Engine.CheckCustomProperties` once the catalog content and its
presence are known: parse, read current properties, apply the
`needsUpdate` gate, and dispatch on the metadata mode. -/
def checkCustomPropertiesWithContent (e : Engine) (c : Client)
    (owner repo defaultBranch : String) (openPRs : List PullRequest)
    (content : String) (catalogFound : Bool) : Except String Unit × List Effect :=
  let desired := Catalog.Parse e.yamlUnmarshal content
  match c.getCustomPropertyValues owner repo with
  | Except.error err => (Except.error ("reading custom properties: " ++ err), [])
  | Except.ok current =>
    if !diffProperties desired current then
      (Except.ok (), [Effect.incPropertiesAlreadyCorrect])
    else
      if e.customPropertiesMode == "github-action" then
        handleGHAMode e c owner repo defaultBranch desired openPRs
      else if e.customPropertiesMode == "api" then
        handleAPIMode e c owner repo defaultBranch desired catalogFound openPRs
      else (Except.ok (), [])

/-- Embedding of `Engine.CheckCustomProperties`. -/
def CheckCustomProperties (e : Engine) (c : Client)
    (owner repo defaultBranch : String) (openPRs : List PullRequest) :
    Except String Unit × List Effect :=
  let rest : Except String Unit × List Effect :=
    match c.getFileContent owner repo "catalog-info.yaml" with
    | Except.error err => (Except.error ("reading catalog-info.yaml: " ++ err), [])
    | Except.ok content0 =>
      if content0 != "" then
        checkCustomPropertiesWithContent e c owner repo defaultBranch openPRs content0 true
      else
        match c.getFileContent owner repo "catalog-info.yml" with
        | Except.error err => (Except.error ("reading catalog-info.yml: " ++ err), [])
        | Except.ok content1 =>
          checkCustomPropertiesWithContent e c owner repo defaultBranch openPRs
            content1 (content1 != "")
  match rest with
  | (res, tr) => (res, Effect.incPropertiesChecked :: tr)

/-- Embedding of `Engine.checkCustomPropertiesIfEnabled`: a failure of the
metadata check is logged and swallowed. -/
def checkCustomPropertiesIfEnabled (e : Engine) (c : Client)
    (owner repo defaultBranch : String) (openPRs : List PullRequest) :
    Except String Unit × List Effect :=
  if e.customPropertiesMode == "" then (Except.ok (), [])
  else
    match CheckCustomProperties e c owner repo defaultBranch openPRs with
    | (_, tr) => (Except.ok (), tr)

/-- Embedding of `Engine.CheckRepo`. -/
def CheckRepo (e : Engine) (c : Client) (owner repo : String) :
    Except String Unit × List Effect :=
  match c.getRepository owner repo with
  | Except.error err => (Except.error ("getting repository info: " ++ err), [])
  | Except.ok repoInfo =>
    if shouldSkip e repoInfo then (Except.ok (), [])
    else
      match c.listOpenPullRequests owner repo with
      | Except.error err => (Except.error ("listing open PRs: " ++ err), [])
      | Except.ok openPRs =>
        match findMissingFiles e c owner repo openPRs with
        | (Except.error err, tr) => (Except.error err, tr)
        | (Except.ok missing, tr) =>
          let step : Except String Unit × List Effect :=
            if missing.length == 0 then (Except.ok (), [])
            else if e.dryRun then (Except.ok (), [])
            else createOrUpdatePR e c owner repo repoInfo.defaultRef missing openPRs
          match step with
          | (Except.error err, tr2) => (Except.error err, tr ++ tr2)
          | (Except.ok _, tr2) =>
            match checkCustomPropertiesIfEnabled e c owner repo repoInfo.defaultRef openPRs with
            | (res, tr3) => (res, tr ++ tr2 ++ tr3)

end Checker

/-! ## Claim C4 — catalog parser totality and defaults -/

/-- Auxiliary fact: `goAtoi` of the empty string is `none`. -/
theorem goAtoi_empty : goAtoi "" = none := rfl

/-- C4: `Parse` is total: for every unmarshal behaviour and every input it
returns a record whose Owner and Component are nonempty; and whenever the
input does not decode to a document with `apiVersion =
backstage.io/v1alpha1` and `kind = Component` (including unmarshal
failures, hence unparseable YAML and the empty string), the result is
exactly `{Unclassified, Unclassified, "", ""}`. -/
theorem parse_total_and_default (u : String → Option Catalog.Entity) (content : String) :
    (Catalog.Parse u content).owner ≠ "" ∧
    (Catalog.Parse u content).component ≠ "" ∧
    ((∀ ent, u content = some ent →
        ent.apiVersion ≠ "backstage.io/v1alpha1" ∨ ent.kind ≠ "Component") →
      Catalog.Parse u content = Catalog.defaults) := by
  refine ⟨?_, ?_, ?_⟩
  · unfold Catalog.Parse
    split
    · decide
    · split
      · decide
      · dsimp only
        split <;> split <;> simp_all [Catalog.DefaultOwner]
  · unfold Catalog.Parse
    split
    · decide
    · split
      · decide
      · dsimp only
        split <;> split <;> simp_all [Catalog.DefaultComponent]
  · intro himp
    unfold Catalog.Parse
    split
    · rfl
    · next ent hent =>
      split
      · rfl
      · next hcond =>
        simp only [Bool.or_eq_true, bne_iff_ne, ne_eq, not_or, not_not] at hcond
        rcases himp ent hent with h2 | h2
        · exact absurd hcond.1 h2
        · exact absurd hcond.2 h2

/-- Witness for C4 at a concrete input: an unmarshal failure on the string
`not yaml` yields the default record with nonempty Owner/Component. -/
theorem parse_total_and_default_witness :
    (Catalog.Parse (fun _ => none) "not yaml").owner ≠ "" ∧
    (Catalog.Parse (fun _ => none) "not yaml").component ≠ "" ∧
    Catalog.Parse (fun _ => none) "not yaml" = Catalog.defaults := by
  have h := parse_total_and_default (fun _ => none) "not yaml"
  exact ⟨h.1, h.2.1, h.2.2 (fun ent hent => Option.noConfusion hent)⟩

/-! ## Claim C9 — webhook rejects bad signatures with 401, no enqueue -/

/-- C9: a POST whose payload signature does not verify gets status 401 and
the handler enqueues nothing. -/
theorem serveHTTP_bad_signature (req : Webhook.Request)
    (hm : req.method = "POST") (hs : req.signatureValid = false) :
    Webhook.serveHTTP req = (401, []) := by
  simp [Webhook.serveHTTP, hm, hs]

/-- Witness for C9 at a concrete request. -/
theorem serveHTTP_bad_signature_witness :
    Webhook.serveHTTP
      { method := "POST", signatureValid := false,
        parsedEvent := some Webhook.Event.otherEvent } = (401, []) :=
  serveHTTP_bad_signature _ rfl rfl

/-! ## Claim C6 — at most one retry; second response returned unmodified -/

/-- C6: the middleware calls the underlying transport at most twice per
outbound request; and when the first response is rate-limited and the retry
path succeeds, the second response is returned to the caller unmodified —
in particular also when it is another 403, since `r2` is arbitrary. -/
theorem roundTrip_retry_spec (preWaitOk retrySleepOk : Bool) (getBody : Option Bool)
    (next : Nat → Option Github.Response) :
    (Github.roundTrip preWaitOk retrySleepOk getBody next).2 ≤ 2 ∧
    (∀ r1 r2, preWaitOk = true → next 0 = some r1 →
      Github.isRateLimited r1 = true → retrySleepOk = true →
      getBody ≠ some false → next 1 = some r2 →
      (Github.roundTrip preWaitOk retrySleepOk getBody next).1 = some r2) := by
  constructor
  · unfold Github.roundTrip
    split
    · simp
    · split
      · simp
      · split
        · simp
        · split
          · simp
          · split
            · simp
            · split <;> simp
  · intro r1 r2 hp h0 hrl hs hgb h1
    simp only [Github.roundTrip, hp, Bool.not_true, Bool.false_eq_true, if_false, h0,
      hrl, Bool.not_false, hs]
    rcases getBody with _ | b
    · simp [h1]
    · cases b
      · exact absurd rfl hgb
      · simp [h1]

/-- A first response that is secondary rate-limited. -/
def respRL1 : Github.Response :=
  { status := 403, headers := [("Retry-After", "1"), ("X-RateLimit-Remaining", "100")] }

/-- A second response that is itself another rate-limited 403. -/
def respRL2 : Github.Response :=
  { status := 403, headers := [("Retry-After", "1"), ("X-RateLimit-Remaining", "0")] }

/-- The underlying transport for the C6 witness: 403 then another 403. -/
def nextC6 : Nat → Option Github.Response :=
  fun i => if i == 0 then some respRL1 else some respRL2

/-- Witness for C6 at a concrete transport: the first response is a
rate-limited 403 and the second — another 403 — is returned unmodified
after at most two calls. -/
theorem roundTrip_retry_spec_witness :
    (Github.roundTrip true true none nextC6).2 ≤ 2 ∧
    (Github.roundTrip true true none nextC6).1 = some respRL2 := by
  have h := roundTrip_retry_spec true true none nextC6
  exact ⟨h.1, h.2 respRL1 respRL2 rfl rfl (by decide) rfl (by simp) rfl⟩

/-! ## Claim C7 — pre-retry sleep computation -/

/-- A primary rate-limited 403 whose reset lies half a second in the
future (reset at unix second 10, now at 9.5 s). -/
def respC7 : Github.Response :=
  { status := 403,
    headers := [("X-RateLimit-Remaining", "0"), ("X-RateLimit-Limit", "5000"),
                ("X-RateLimit-Reset", "10")] }

/-- Counterexample to C7 as stated: this response is rate-limited (primary,
no Retry-After), yet the computed pre-retry sleep is 0.5 s — the claimed
1-second floor does not hold; the 1-second value is only the fallback when
no positive delay can be computed from the headers. -/
theorem rateLimitDelay_below_one_second :
    Github.isRateLimited respC7 = true ∧
    Github.rateLimitDelay 9500000000 respC7 = 500000000 ∧
    ¬ Github.nsPerSecond ≤ Github.rateLimitDelay 9500000000 respC7 := by
  decide

/-- C7 as amended: the sleep before the single retry is `Retry-After`
seconds when that header parses to a positive integer; otherwise it is the
time remaining until `X-RateLimit-Reset` when that is positive — with no
1-second floor applied — and only otherwise is it the fallback of exactly
1 second. -/
theorem rateLimitDelay_characterization (now : Int) (resp : Github.Response) :
    (∀ s : Int, goAtoi (lookupDefault resp.headers "Retry-After") = some s → 0 < s →
      Github.rateLimitDelay now resp = s * Github.nsPerSecond) ∧
    ((∀ s : Int, goAtoi (lookupDefault resp.headers "Retry-After") = some s → s ≤ 0) →
      ∀ r : Int, goAtoi (lookupDefault resp.headers "X-RateLimit-Reset") = some r →
        0 < r * Github.nsPerSecond - now →
        Github.rateLimitDelay now resp = r * Github.nsPerSecond - now) ∧
    ((∀ s : Int, goAtoi (lookupDefault resp.headers "Retry-After") = some s → s ≤ 0) →
      (∀ r : Int, goAtoi (lookupDefault resp.headers "X-RateLimit-Reset") = some r →
        r * Github.nsPerSecond - now ≤ 0) →
      Github.rateLimitDelay now resp = Github.nsPerSecond) := by
  have hempty : goAtoi "" = none := rfl
  refine ⟨?_, ?_, ?_⟩
  · intro s hs hpos
    have hne : (lookupDefault resp.headers "Retry-After" != "") = true := by
      by_cases hb : lookupDefault resp.headers "Retry-After" = ""
      · rw [hb] at hs; rw [hempty] at hs; exact Option.noConfusion hs
      · simpa [bne_iff_ne] using hb
    simp only [Github.rateLimitDelay, hne, if_true, hs, hpos, if_pos]
  · intro hra r hr hpos
    have hskip : (if (lookupDefault resp.headers "Retry-After" != "") = true then
        (match goAtoi (lookupDefault resp.headers "Retry-After") with
          | some seconds => if seconds > 0 then some (seconds * Github.nsPerSecond) else none
          | none => none)
      else none) = none := by
      split
      · rcases ha : goAtoi (lookupDefault resp.headers "Retry-After") with _ | s
        · rfl
        · have := hra s ha
          simp [not_lt.mpr this]
      · rfl
    have hrne : (lookupDefault resp.headers "X-RateLimit-Reset" != "") = true := by
      by_cases hb : lookupDefault resp.headers "X-RateLimit-Reset" = ""
      · rw [hb, hempty] at hr; exact Option.noConfusion hr
      · simpa [bne_iff_ne] using hb
    simp only [Github.rateLimitDelay]
    rw [hskip]
    simp only [hrne, if_true, hr, hpos, if_pos]
  · intro hra hrs
    have hskip : (if (lookupDefault resp.headers "Retry-After" != "") = true then
        (match goAtoi (lookupDefault resp.headers "Retry-After") with
          | some seconds => if seconds > 0 then some (seconds * Github.nsPerSecond) else none
          | none => none)
      else none) = none := by
      split
      · rcases ha : goAtoi (lookupDefault resp.headers "Retry-After") with _ | s
        · rfl
        · have := hra s ha
          simp [not_lt.mpr this]
      · rfl
    have hskip2 : (if (lookupDefault resp.headers "X-RateLimit-Reset" != "") = true then
        (match goAtoi (lookupDefault resp.headers "X-RateLimit-Reset") with
          | some resetUnix =>
            if resetUnix * Github.nsPerSecond - now > 0 then
              some (resetUnix * Github.nsPerSecond - now) else none
          | none => none)
      else none) = none := by
      split
      · rcases ha : goAtoi (lookupDefault resp.headers "X-RateLimit-Reset") with _ | r
        · rfl
        · have := hrs r ha
          simp [not_lt.mpr this]
      · rfl
    simp only [Github.rateLimitDelay]
    rw [hskip]
    rw [hskip2]

/-- Witness for the amended C7 at a concrete response: `Retry-After: 2`
gives a 2-second sleep. -/
theorem rateLimitDelay_characterization_witness :
    Github.rateLimitDelay 0
      { status := 403, headers := [("Retry-After", "2")] } = 2 * Github.nsPerSecond :=
  (rateLimitDelay_characterization 0
    { status := 403, headers := [("Retry-After", "2")] }).1 2 (by decide) (by decide)

/-! ## Claim C8 — pre-emptive pacing -/

/-- C8: pre-emptive pacing.  With a nonnegative configured threshold and a
nonnegative tracked limit (both guaranteed by configuration validation and
the response headers): when `limit > 0` and `remaining ≤ limit·threshold`,
the middleware skips when `resetAt − now ≤ 0`, sleeps `resetAt − now` when
`remaining = 0`, and otherwise sleeps `(resetAt − now) / remaining`
(truncated integer division), each sleep clamped to at least one second;
when `limit = 0` or `remaining > limit·threshold`, no pre-emptive sleep
occurs. -/
theorem waitIfNeeded_pacing (threshold : ℚ) (st : Github.RateState) (now : Int)
    (hθ : 0 ≤ threshold) (hlim : 0 ≤ st.limit) :
    (0 < st.limit → (st.remaining : ℚ) ≤ (st.limit : ℚ) * threshold →
      ((st.resetAt - now ≤ 0 → Github.waitIfNeeded threshold st now = none) ∧
       (0 < st.resetAt - now → st.remaining = 0 →
         Github.waitIfNeeded threshold st now =
           some (max Github.nsPerSecond (st.resetAt - now))) ∧
       (0 < st.resetAt - now → st.remaining ≠ 0 →
         Github.waitIfNeeded threshold st now =
           some (max Github.nsPerSecond ((st.resetAt - now).tdiv st.remaining))))) ∧
    ((st.limit = 0 ∨ (st.limit : ℚ) * threshold < (st.remaining : ℚ)) →
      Github.waitIfNeeded threshold st now = none) := by
  have hprod : (0 : ℚ) ≤ (st.limit : ℚ) * threshold := by
    have : (0 : ℚ) ≤ (st.limit : ℚ) := by exact_mod_cast hlim
    exact mul_nonneg this hθ
  have htrunc : Github.goIntTrunc ((st.limit : ℚ) * threshold) =
      ⌊(st.limit : ℚ) * threshold⌋ := by
    unfold Github.goIntTrunc
    rw [if_pos hprod]
  constructor
  · intro hpos hle
    have hlimne : (st.limit == 0) = false := by
      simp [beq_iff_eq]
      omega
    have hnotgt : ¬ st.remaining > Github.goIntTrunc ((st.limit : ℚ) * threshold) := by
      rw [htrunc]
      rw [not_lt, Int.le_floor]
      exact hle
    refine ⟨?_, ?_, ?_⟩
    · intro hres
      simp only [Github.waitIfNeeded, hlimne, Bool.false_eq_true, if_false,
        if_neg hnotgt, if_pos hres]
    · intro hres hrem
      have hrem0 : (st.remaining == 0) = true := by simp [beq_iff_eq, hrem]
      simp only [Github.waitIfNeeded, hlimne, Bool.false_eq_true, if_false,
        if_neg hnotgt, if_neg (not_le.mpr hres), hrem0, if_true]
      congr 1
      rcases lt_or_le (st.resetAt - now) Github.nsPerSecond with h | h
      · rw [if_pos h, max_eq_left (le_of_lt h)]
      · rw [if_neg (not_lt.mpr h), max_eq_right h]
    · intro hres hrem
      have hrem0 : (st.remaining == 0) = false := by simp [beq_iff_eq, hrem]
      simp only [Github.waitIfNeeded, hlimne, Bool.false_eq_true, if_false,
        if_neg hnotgt, if_neg (not_le.mpr hres), hrem0, if_false]
      congr 1
      rcases lt_or_le ((st.resetAt - now).tdiv st.remaining) Github.nsPerSecond with h | h
      · rw [if_pos h, max_eq_left (le_of_lt h)]
      · rw [if_neg (not_lt.mpr h), max_eq_right h]
  · intro h
    rcases h with h | h
    · have h0 : (st.limit == 0) = true := by simp [beq_iff_eq, h]
      simp only [Github.waitIfNeeded, h0, if_true]
    · by_cases h0 : st.limit = 0
      · have hb : (st.limit == 0) = true := by simp [beq_iff_eq, h0]
        simp only [Github.waitIfNeeded, hb, if_true]
      · have hlimne : (st.limit == 0) = false := by simp [beq_iff_eq, h0]
        have hgt : st.remaining > Github.goIntTrunc ((st.limit : ℚ) * threshold) := by
          rw [htrunc]
          exact Int.floor_lt.mpr h
        simp only [Github.waitIfNeeded, hlimne, Bool.false_eq_true, if_false, if_pos hgt]

/-- Witness for C8 at a concrete state: 20 of 5000 remaining (below the 10%
threshold), 10 s until reset, so the amortized sleep 0.5 s is clamped to
1 second. -/
theorem waitIfNeeded_pacing_witness :
    Github.waitIfNeeded (1/10)
      { limit := 5000, remaining := 20, resetAt := 100000000000 } 90000000000 =
      some Github.nsPerSecond := by
  have h := ((waitIfNeeded_pacing (1/10)
      { limit := 5000, remaining := 20, resetAt := 100000000000 } 90000000000
      (by norm_num) (by norm_num)).1 (by norm_num) (by norm_num)).2.2
      (by norm_num) (by norm_num)
  rw [h]
  decide

/-! ## Claim C5 — file-rule evaluation -/

/-- When every existence probe answers `g`, `checkFileExistsAux` reports
whether any candidate path exists. -/
theorem checkFileExistsAux_eval (c : Checker.Client) (owner repo : String)
    (g : String → Bool) (hc : ∀ p, c.getContents owner repo p = Except.ok (g p)) :
    ∀ paths : List String,
      Checker.checkFileExistsAux c owner repo paths = Except.ok (paths.any g) := by
  intro paths
  induction paths with
  | nil => rfl
  | cons p rest ih =>
    simp only [Checker.checkFileExistsAux, hc p, List.any_cons]
    cases hg : g p
    · simp [ih]
    · simp

/-- The loop of `findMissingFiles` keeps exactly the rules with no existing
candidate path and no matching open PR, in order, and increments the
per-rule missing counter for each kept rule. -/
theorem findMissingFilesAux_eval (c : Checker.Client) (owner repo : String)
    (openPRs : List Checker.PullRequest) (g : String → Bool)
    (hc : ∀ p, c.getContents owner repo p = Except.ok (g p)) :
    ∀ rules : List Checker.FileRule,
      Checker.findMissingFilesAux c owner repo openPRs rules =
        (Except.ok (rules.filter fun rule =>
            !(rule.paths.any g) && !(Checker.hasExistingPR openPRs rule)),
         (rules.filter fun rule =>
            !(rule.paths.any g) && !(Checker.hasExistingPR openPRs rule)).map
           fun rule => Checker.Effect.incFilesMissing rule.name) := by
  intro rules
  induction rules with
  | nil => rfl
  | cons rule rest ih =>
    have hfe : Checker.checkFileExists c owner repo rule = Except.ok (rule.paths.any g) :=
      checkFileExistsAux_eval c owner repo g hc rule.paths
    simp only [Checker.findMissingFilesAux, hfe]
    cases hany : rule.paths.any g
    · cases hpr : Checker.hasExistingPR openPRs rule
      · simp [List.filter_cons, hany, hpr, ih, Except.map]
      · simp [List.filter_cons, hany, hpr, ih]
    · simp [List.filter_cons, hany, ih]

/-- C5: for each enabled rule, in registry order, the rule is satisfied
when any candidate path exists; otherwise it is satisfied when some open
PR's title or head branch contains one of its search terms as a
case-insensitive substring (`hasExistingPR`); otherwise the rule is
recorded as missing and its `files_missing_total` counter is
incremented. -/
theorem findMissingFiles_rule_evaluation (e : Checker.Engine) (c : Checker.Client)
    (owner repo : String) (openPRs : List Checker.PullRequest) (g : String → Bool)
    (hc : ∀ p, c.getContents owner repo p = Except.ok (g p)) :
    Checker.findMissingFiles e c owner repo openPRs =
      (Except.ok ((Checker.EnabledRules e.registry).filter fun rule =>
          !(rule.paths.any g) && !(Checker.hasExistingPR openPRs rule)),
       ((Checker.EnabledRules e.registry).filter fun rule =>
          !(rule.paths.any g) && !(Checker.hasExistingPR openPRs rule)).map
         fun rule => Checker.Effect.incFilesMissing rule.name) :=
  findMissingFilesAux_eval c owner repo openPRs g hc (Checker.EnabledRules e.registry)

/-- The default rule set of `rules.DefaultRules`: CODEOWNERS and Dependabot
enabled, Renovate defined but disabled. -/
def codeownersRule : Checker.FileRule :=
  { name := "CODEOWNERS",
    paths := ["CODEOWNERS", ".github/CODEOWNERS", "docs/CODEOWNERS"],
    prSearchTerms := ["codeowners", "CODEOWNERS"],
    defaultTemplateName := "codeowners",
    targetPath := ".github/CODEOWNERS",
    enabled := true }

def dependabotRule : Checker.FileRule :=
  { name := "Dependabot",
    paths := [".github/dependabot.yml", ".github/dependabot.yaml"],
    prSearchTerms := ["dependabot"],
    defaultTemplateName := "dependabot",
    targetPath := ".github/dependabot.yml",
    enabled := true }

def renovateRule : Checker.FileRule :=
  { name := "Renovate",
    paths := ["renovate.json", "renovate.json5", ".renovaterc", ".renovaterc.json",
              ".github/renovate.json", ".github/renovate.json5"],
    prSearchTerms := ["renovate"],
    defaultTemplateName := "renovate",
    targetPath := "renovate.json",
    enabled := false }

def DefaultRules : List Checker.FileRule := [codeownersRule, dependabotRule, renovateRule]

/-- A client on which no file exists and whose only open PR is a
third-party CODEOWNERS proposal. -/
def clientC5 : Checker.Client :=
  { getContents := fun _ _ _ => Except.ok false,
    listOpenPullRequests := fun _ _ =>
      Except.ok [{ number := 7, title := "Add CODEOWNERS file",
                   head := "add-codeowners", state := "open" }],
    getRepository := fun _ _ => Except.error "unused",
    getBranchSHA := fun _ _ _ => Except.ok "",
    createBranch := fun _ _ _ _ => Except.ok (),
    deleteBranch := fun _ _ _ => Except.ok (),
    createOrUpdateFile := fun _ _ _ _ _ _ => Except.ok (),
    createPullRequest := fun _ _ _ _ _ _ =>
      Except.ok { number := 1, title := "", head := "", state := "open" },
    getFileContent := fun _ _ _ => Except.ok "",
    getCustomPropertyValues := fun _ _ => Except.ok [],
    setCustomPropertyValues := fun _ _ _ => Except.ok () }

/-- An engine with the default rule registry, used by concrete witnesses. -/
def engineC5 : Checker.Engine :=
  { registry := DefaultRules,
    templates := fun _ => Except.ok "TPL",
    skipForks := true, skipArchived := true, dryRun := false,
    customPropertiesMode := "",
    yamlUnmarshal := fun _ => none }

/-- Witness for C5 at a concrete repository: no file exists, the CODEOWNERS
rule is satisfied by the third-party PR (case-insensitive title match), the
Dependabot rule is recorded missing with its counter incremented, and the
disabled Renovate rule is not evaluated. -/
theorem findMissingFiles_rule_evaluation_witness :
    Checker.findMissingFiles engineC5 clientC5 "acme" "svc"
      [{ number := 7, title := "Add CODEOWNERS file",
         head := "add-codeowners", state := "open" }] =
      (Except.ok [dependabotRule],
       [Checker.Effect.incFilesMissing "Dependabot"]) := by
  have h := findMissingFiles_rule_evaluation engineC5 clientC5 "acme" "svc"
    [{ number := 7, title := "Add CODEOWNERS file",
       head := "add-codeowners", state := "open" }]
    (fun _ => false) (fun _ => rfl)
  rw [h]
  rfl

/-! ## Claims C2 and C10 — the needsUpdate gate -/

/-- The client calls that mutate GitHub state. -/
def Checker.isClientWrite : Checker.Effect → Bool
  | Checker.Effect.createBranch _ _ _ _ => true
  | Checker.Effect.deleteBranch _ _ _ => true
  | Checker.Effect.createOrUpdateFile _ _ _ _ _ _ => true
  | Checker.Effect.createPullRequest _ _ _ _ _ _ => true
  | Checker.Effect.setCustomPropertyValues _ _ _ => true
  | _ => false

/-- When the diff gate is closed, `checkCustomPropertiesWithContent`
records "already correct" and performs nothing else. -/
theorem checkCustomPropertiesWithContent_already (e : Checker.Engine)
    (c : Checker.Client) (owner repo defaultBranch : String)
    (openPRs : List Checker.PullRequest) (content : String) (catalogFound : Bool)
    (current : List Checker.CustomPropertyValue)
    (h3 : c.getCustomPropertyValues owner repo = Except.ok current)
    (hd0 : Checker.diffProperties (Catalog.Parse e.yamlUnmarshal content) current = false) :
    Checker.checkCustomPropertiesWithContent e c owner repo defaultBranch openPRs
        content catalogFound =
      (Except.ok (), [Checker.Effect.incPropertiesAlreadyCorrect]) := by
  simp only [Checker.checkCustomPropertiesWithContent, h3]
  simp [hd0]

/-- When the diff gate is closed, `CheckCustomProperties` increments the
checked and already-correct counters and returns with no writes. -/
theorem CheckCustomProperties_already (e : Checker.Engine) (c : Checker.Client)
    (owner repo defaultBranch : String) (openPRs : List Checker.PullRequest)
    (y1 y2 : String) (current : List Checker.CustomPropertyValue)
    (h1 : c.getFileContent owner repo "catalog-info.yaml" = Except.ok y1)
    (h2 : c.getFileContent owner repo "catalog-info.yml" = Except.ok y2)
    (h3 : c.getCustomPropertyValues owner repo = Except.ok current)
    (hd0 : Checker.diffProperties
        (Catalog.Parse e.yamlUnmarshal (if y1 = "" then y2 else y1)) current = false) :
    Checker.CheckCustomProperties e c owner repo defaultBranch openPRs =
      (Except.ok (), [Checker.Effect.incPropertiesChecked,
                      Checker.Effect.incPropertiesAlreadyCorrect]) := by
  simp only [Checker.CheckCustomProperties, h1]
  by_cases hy : y1 = ""
  · rw [if_pos hy] at hd0
    subst hy
    simp only [bne_self_eq_false, Bool.false_eq_true, if_false, h2]
    rw [checkCustomPropertiesWithContent_already e c owner repo defaultBranch openPRs
      y2 (y2 != "") current h3 hd0]
  · rw [if_neg hy] at hd0
    have hb : (y1 != "") = true := by simp [bne_iff_ne, hy]
    simp only [hb, if_true]
    rw [checkCustomPropertiesWithContent_already e c owner repo defaultBranch openPRs
      y1 true current h3 hd0]

/-- C2: metadata reconciliation's needsUpdate gate.  The source's
`diffProperties` computes exactly the claimed formula (first conjunct);
when it is false the pass records "already correct" and returns without
any write (second conjunct); and any mutating client call in the pass's
trace implies the gate was open (third conjunct). -/
theorem checkCustomProperties_needsUpdate_gate (e : Checker.Engine)
    (c : Checker.Client) (owner repo defaultBranch : String)
    (openPRs : List Checker.PullRequest) (y1 y2 content : String)
    (current : List Checker.CustomPropertyValue) (desired : Catalog.Properties)
    (h1 : c.getFileContent owner repo "catalog-info.yaml" = Except.ok y1)
    (h2 : c.getFileContent owner repo "catalog-info.yml" = Except.ok y2)
    (hcontent : content = if y1 = "" then y2 else y1)
    (hdesired : desired = Catalog.Parse e.yamlUnmarshal content)
    (h3 : c.getCustomPropertyValues owner repo = Except.ok current) :
    (Checker.diffProperties desired current =
      ((Checker.currentMapGet current "Owner" != desired.owner) ||
       (Checker.currentMapGet current "Component" != desired.component) ||
       (desired.jiraProject != "" &&
         Checker.currentMapGet current "JiraProject" != desired.jiraProject) ||
       (desired.jiraLabel != "" &&
         Checker.currentMapGet current "JiraLabel" != desired.jiraLabel))) ∧
    (Checker.diffProperties desired current = false →
      Checker.CheckCustomProperties e c owner repo defaultBranch openPRs =
        (Except.ok (), [Checker.Effect.incPropertiesChecked,
                        Checker.Effect.incPropertiesAlreadyCorrect])) ∧
    (∀ eff ∈ (Checker.CheckCustomProperties e c owner repo defaultBranch openPRs).2,
      Checker.isClientWrite eff = true →
        Checker.diffProperties desired current = true) := by
  have hformula : Checker.diffProperties desired current =
      ((Checker.currentMapGet current "Owner" != desired.owner) ||
       (Checker.currentMapGet current "Component" != desired.component) ||
       (desired.jiraProject != "" &&
         Checker.currentMapGet current "JiraProject" != desired.jiraProject) ||
       (desired.jiraLabel != "" &&
         Checker.currentMapGet current "JiraLabel" != desired.jiraLabel)) := by
    unfold Checker.diffProperties
    cases hA : (Checker.currentMapGet current "Owner" != desired.owner) <;>
      cases hB : (Checker.currentMapGet current "Component" != desired.component) <;>
      cases hC : (desired.jiraProject != "" &&
        Checker.currentMapGet current "JiraProject" != desired.jiraProject) <;>
      cases hD : (desired.jiraLabel != "" &&
        Checker.currentMapGet current "JiraLabel" != desired.jiraLabel) <;>
      simp [hA, hB, hC, hD]
  have halready : Checker.diffProperties desired current = false →
      Checker.CheckCustomProperties e c owner repo defaultBranch openPRs =
        (Except.ok (), [Checker.Effect.incPropertiesChecked,
                        Checker.Effect.incPropertiesAlreadyCorrect]) := by
    intro hd0
    refine CheckCustomProperties_already e c owner repo defaultBranch openPRs y1 y2
      current h1 h2 h3 ?_
    rw [← hcontent, ← hdesired]
    exact hd0
  refine ⟨hformula, halready, ?_⟩
  intro eff hmem hw
  cases hdp : Checker.diffProperties desired current
  · exfalso
    have htr := congrArg Prod.snd (halready hdp)
    rw [htr] at hmem
    simp only [List.mem_cons, List.not_mem_nil, or_false] at hmem
    rcases hmem with hmem | hmem <;> (rw [hmem] at hw; exact Bool.noConfusion hw)
  · rfl

/-- A decoded catalog document used by the C2 witness. -/
def entC2 : Catalog.Entity :=
  { apiVersion := "backstage.io/v1alpha1", kind := "Component",
    metadata := { name := "svc", annots := [("jira/project-key", "PRJ")] },
    spec := { owner := "team-a", lifecycle := "", typeName := "", system := "" } }

/-- An engine in api mode whose YAML library decodes the fixed document. -/
def engineC2 : Checker.Engine :=
  { registry := DefaultRules,
    templates := fun _ => Except.ok "TPL",
    skipForks := true, skipArchived := true, dryRun := false,
    customPropertiesMode := "api",
    yamlUnmarshal := fun s => if s == "catalogdoc" then some entC2 else none }

/-- The current properties for the C2 witness: they already match. -/
def currentC2 : List Checker.CustomPropertyValue :=
  [{ propertyName := "Owner", value := "team-a" },
   { propertyName := "Component", value := "svc" },
   { propertyName := "JiraProject", value := "PRJ" }]

/-- A client whose catalog file matches the current properties. -/
def clientC2 : Checker.Client :=
  { getContents := fun _ _ _ => Except.ok true,
    listOpenPullRequests := fun _ _ => Except.ok [],
    getRepository := fun _ _ => Except.error "unused",
    getBranchSHA := fun _ _ _ => Except.ok "",
    createBranch := fun _ _ _ _ => Except.ok (),
    deleteBranch := fun _ _ _ => Except.ok (),
    createOrUpdateFile := fun _ _ _ _ _ _ => Except.ok (),
    createPullRequest := fun _ _ _ _ _ _ =>
      Except.ok { number := 1, title := "", head := "", state := "open" },
    getFileContent := fun _ _ p =>
      if p == "catalog-info.yaml" then Except.ok "catalogdoc" else Except.ok "",
    getCustomPropertyValues := fun _ _ => Except.ok currentC2,
    setCustomPropertyValues := fun _ _ _ => Except.ok () }

/-- Witness for C2 at a concrete repository whose properties already match:
the gate is closed and the pass records "already correct" and returns with
no writes. -/
theorem checkCustomProperties_needsUpdate_gate_witness :
    Checker.diffProperties (Catalog.Parse engineC2.yamlUnmarshal "catalogdoc") currentC2 = false ∧
    Checker.CheckCustomProperties engineC2 clientC2 "acme" "svc" "main" [] =
      (Except.ok (), [Checker.Effect.incPropertiesChecked,
                      Checker.Effect.incPropertiesAlreadyCorrect]) := by
  have h := checkCustomProperties_needsUpdate_gate engineC2 clientC2 "acme" "svc" "main" []
    "catalogdoc" "" "catalogdoc" currentC2
    (Catalog.Parse engineC2.yamlUnmarshal "catalogdoc")
    rfl rfl (by simp) rfl rfl
  have hd0 : Checker.diffProperties
      (Catalog.Parse engineC2.yamlUnmarshal "catalogdoc") currentC2 = false := by rfl
  exact ⟨hd0, h.2.1 hd0⟩

/-- C10: in api mode, when neither catalog file exists (both reads yield
the empty string, which the YAML library decodes to the zero entity) and
the current properties already carry Unclassified Owner and Component, the
pass returns at the "already correct" gate, before the mode dispatch: the
trace is exactly the two counter increments — so no property write happens
and no catalog-info PR or branch is created. -/
theorem checkCustomProperties_api_unclassified_early_return (e : Checker.Engine)
    (c : Checker.Client) (owner repo defaultBranch : String)
    (openPRs : List Checker.PullRequest)
    (current : List Checker.CustomPropertyValue)
    (hmode : e.customPropertiesMode = "api")
    (h1 : c.getFileContent owner repo "catalog-info.yaml" = Except.ok "")
    (h2 : c.getFileContent owner repo "catalog-info.yml" = Except.ok "")
    (hz : e.yamlUnmarshal "" = some Catalog.zeroEntity)
    (h3 : c.getCustomPropertyValues owner repo = Except.ok current)
    (hOwn : Checker.currentMapGet current "Owner" = "Unclassified")
    (hComp : Checker.currentMapGet current "Component" = "Unclassified") :
    Checker.CheckCustomProperties e c owner repo defaultBranch openPRs =
      (Except.ok (), [Checker.Effect.incPropertiesChecked,
                      Checker.Effect.incPropertiesAlreadyCorrect]) ∧
    ∀ eff ∈ (Checker.CheckCustomProperties e c owner repo defaultBranch openPRs).2,
      Checker.isClientWrite eff = false := by
  have hparse : Catalog.Parse e.yamlUnmarshal "" = Catalog.defaults := by
    unfold Catalog.Parse
    rw [hz]
    rfl
  have hd0 : Checker.diffProperties (Catalog.Parse e.yamlUnmarshal "") current = false := by
    rw [hparse]
    simp [Checker.diffProperties, Catalog.defaults, Catalog.DefaultOwner,
      Catalog.DefaultComponent, hOwn, hComp]
  have hmain := CheckCustomProperties_already e c owner repo defaultBranch openPRs
    "" "" current h1 h2 h3 (by simpa using hd0)
  refine ⟨hmain, ?_⟩
  intro eff hmem
  rw [congrArg Prod.snd hmain] at hmem
  simp only [List.mem_cons, List.not_mem_nil, or_false] at hmem
  rcases hmem with h | h <;> (rw [h]; rfl)

/-- An engine in api mode whose YAML library behaves like go-yaml on the
empty string. -/
def engineC10 : Checker.Engine :=
  { registry := DefaultRules,
    templates := fun _ => Except.ok "TPL",
    skipForks := true, skipArchived := true, dryRun := false,
    customPropertiesMode := "api",
    yamlUnmarshal := fun s => if s == "" then some Catalog.zeroEntity else none }

/-- A client with no catalog files and already-Unclassified properties. -/
def clientC10 : Checker.Client :=
  { getContents := fun _ _ _ => Except.ok true,
    listOpenPullRequests := fun _ _ => Except.ok [],
    getRepository := fun _ _ => Except.error "unused",
    getBranchSHA := fun _ _ _ => Except.ok "",
    createBranch := fun _ _ _ _ => Except.ok (),
    deleteBranch := fun _ _ _ => Except.ok (),
    createOrUpdateFile := fun _ _ _ _ _ _ => Except.ok (),
    createPullRequest := fun _ _ _ _ _ _ =>
      Except.ok { number := 1, title := "", head := "", state := "open" },
    getFileContent := fun _ _ _ => Except.ok "",
    getCustomPropertyValues := fun _ _ =>
      Except.ok [{ propertyName := "Owner", value := "Unclassified" },
                 { propertyName := "Component", value := "Unclassified" }],
    setCustomPropertyValues := fun _ _ _ => Except.ok () }

/-- Witness for C10 at a concrete repository. -/
theorem checkCustomProperties_api_unclassified_early_return_witness :
    Checker.CheckCustomProperties engineC10 clientC10 "acme" "svc" "main" [] =
      (Except.ok (), [Checker.Effect.incPropertiesChecked,
                      Checker.Effect.incPropertiesAlreadyCorrect]) ∧
    ∀ eff ∈ (Checker.CheckCustomProperties engineC10 clientC10 "acme" "svc" "main" []).2,
      Checker.isClientWrite eff = false :=
  checkCustomProperties_api_unclassified_early_return engineC10 clientC10
    "acme" "svc" "main" []
    [{ propertyName := "Owner", value := "Unclassified" },
     { propertyName := "Component", value := "Unclassified" }]
    rfl rfl rfl rfl rfl rfl rfl

/-! ## Claim C3 — dry-run performs no writes -/

/-- The four client calls the dry-run claim forbids. -/
def Checker.isForbiddenInDryRun : Checker.Effect → Bool
  | Checker.Effect.createBranch _ _ _ _ => true
  | Checker.Effect.createOrUpdateFile _ _ _ _ _ _ => true
  | Checker.Effect.createPullRequest _ _ _ _ _ _ => true
  | Checker.Effect.setCustomPropertyValues _ _ _ => true
  | _ => false

/-- Every effect the file-rule evaluation loop records is a missing-file
counter increment. -/
theorem findMissingFilesAux_effects (c : Checker.Client) (owner repo : String)
    (openPRs : List Checker.PullRequest) :
    ∀ rules : List Checker.FileRule,
      ∀ eff ∈ (Checker.findMissingFilesAux c owner repo openPRs rules).2,
        ∃ n, eff = Checker.Effect.incFilesMissing n := by
  intro rules
  induction rules with
  | nil => intro eff h; simp [Checker.findMissingFilesAux] at h
  | cons rule rest ih =>
    intro eff h
    simp only [Checker.findMissingFilesAux] at h
    rcases hfe : Checker.checkFileExists c owner repo rule with err | ex
    · rw [hfe] at h
      simp at h
    · rw [hfe] at h
      cases ex
      · simp only [Bool.false_eq_true, if_false] at h
        cases hpr : Checker.hasExistingPR openPRs rule
        · rw [hpr] at h
          simp only [Bool.false_eq_true, if_false] at h
          rcases hrec : Checker.findMissingFilesAux c owner repo openPRs rest with ⟨res, tr⟩
          rw [hrec] at h
          simp only [List.mem_cons] at h
          rcases h with h | h
          · exact ⟨rule.name, h⟩
          · exact ih eff (by rw [hrec]; exact h)
        · rw [hpr] at h
          simp only [if_true] at h
          exact ih eff h
      · simp only [if_true] at h
        exact ih eff h

/-- In dry-run, github-action metadata mode records nothing. -/
theorem handleGHAMode_dry_trace (e : Checker.Engine) (c : Checker.Client)
    (owner repo defaultBranch : String) (desired : Catalog.Properties)
    (openPRs : List Checker.PullRequest) (hdry : e.dryRun = true) :
    (Checker.handleGHAMode e c owner repo defaultBranch desired openPRs).2 = [] := by
  unfold Checker.handleGHAMode
  rcases hpr : Checker.findPropertiesPR openPRs Checker.PropertiesBranchName with _ | pr
  · simp [hdry]
  · simp

/-- In dry-run, api metadata mode records nothing. -/
theorem handleAPIMode_dry_trace (e : Checker.Engine) (c : Checker.Client)
    (owner repo defaultBranch : String) (desired : Catalog.Properties)
    (catalogFound : Bool) (openPRs : List Checker.PullRequest)
    (hdry : e.dryRun = true) :
    (Checker.handleAPIMode e c owner repo defaultBranch desired catalogFound openPRs).2 = [] := by
  unfold Checker.handleAPIMode
  simp [hdry]

/-- In dry-run, the post-read part of the metadata check records at most
the already-correct increment. -/
theorem checkCustomPropertiesWithContent_dry_trace (e : Checker.Engine)
    (c : Checker.Client) (owner repo defaultBranch : String)
    (openPRs : List Checker.PullRequest) (content : String) (catalogFound : Bool)
    (hdry : e.dryRun = true) :
    (Checker.checkCustomPropertiesWithContent e c owner repo defaultBranch openPRs
        content catalogFound).2 = [] ∨
    (Checker.checkCustomPropertiesWithContent e c owner repo defaultBranch openPRs
        content catalogFound).2 = [Checker.Effect.incPropertiesAlreadyCorrect] := by
  unfold Checker.checkCustomPropertiesWithContent
  rcases hcur : c.getCustomPropertyValues owner repo with err | current
  · left; rfl
  · cases hdiff : Checker.diffProperties (Catalog.Parse e.yamlUnmarshal content) current
    · right; simp [hdiff]
    · left
      simp only [hdiff, Bool.not_true, Bool.false_eq_true, if_false]
      split
      · rw [handleGHAMode_dry_trace e c owner repo defaultBranch _ openPRs hdry]
      · split
        · rw [handleAPIMode_dry_trace e c owner repo defaultBranch _ catalogFound openPRs hdry]
        · rfl

/-- In dry-run, the full metadata check records at most the checked and
already-correct increments. -/
theorem CheckCustomProperties_dry_trace (e : Checker.Engine) (c : Checker.Client)
    (owner repo defaultBranch : String) (openPRs : List Checker.PullRequest)
    (hdry : e.dryRun = true) :
    (Checker.CheckCustomProperties e c owner repo defaultBranch openPRs).2 =
        [Checker.Effect.incPropertiesChecked] ∨
    (Checker.CheckCustomProperties e c owner repo defaultBranch openPRs).2 =
        [Checker.Effect.incPropertiesChecked,
         Checker.Effect.incPropertiesAlreadyCorrect] := by
  unfold Checker.CheckCustomProperties
  rcases h1 : c.getFileContent owner repo "catalog-info.yaml" with err | content0
  · left; rfl
  · dsimp only
    cases hne : (content0 != "")
    · simp only [Bool.false_eq_true, if_false]
      rcases h2 : c.getFileContent owner repo "catalog-info.yml" with err | content1
      · left; rfl
      · dsimp only
        rcases hwc : Checker.checkCustomPropertiesWithContent e c owner repo
          defaultBranch openPRs content1 (content1 != "") with ⟨res, tr⟩
        have h := checkCustomPropertiesWithContent_dry_trace e c owner repo defaultBranch
          openPRs content1 (content1 != "") hdry
        rw [hwc] at h
        simp only at h
        rcases h with h | h <;> rw [h]
        · left; rfl
        · right; rfl
    · simp only [if_true]
      rcases hwc : Checker.checkCustomPropertiesWithContent e c owner repo
        defaultBranch openPRs content0 true with ⟨res, tr⟩
      have h := checkCustomPropertiesWithContent_dry_trace e c owner repo defaultBranch
        openPRs content0 true hdry
      rw [hwc] at h
      simp only at h
      rcases h with h | h <;> rw [h]
      · left; rfl
      · right; rfl

/-- In dry-run, every effect of the metadata step is a counter increment,
never one of the forbidden client calls. -/
theorem checkCustomPropertiesIfEnabled_dry_effects (e : Checker.Engine)
    (c : Checker.Client) (owner repo defaultBranch : String)
    (openPRs : List Checker.PullRequest) (hdry : e.dryRun = true) :
    ∀ eff ∈ (Checker.checkCustomPropertiesIfEnabled e c owner repo defaultBranch openPRs).2,
      Checker.isForbiddenInDryRun eff = false := by
  intro eff hmem
  unfold Checker.checkCustomPropertiesIfEnabled at hmem
  cases hm : (e.customPropertiesMode == "")
  · rw [hm] at hmem
    simp only [Bool.false_eq_true, if_false] at hmem
    rcases hcc : Checker.CheckCustomProperties e c owner repo defaultBranch openPRs
      with ⟨r0, tr0⟩
    rw [hcc] at hmem
    dsimp only at hmem
    have hE := CheckCustomProperties_dry_trace e c owner repo defaultBranch openPRs hdry
    rw [hcc] at hE
    simp only at hE
    rcases hE with h | h <;> rw [h] at hmem <;>
      simp only [List.mem_cons, List.not_mem_nil, or_false] at hmem
    · rw [hmem]; rfl
    · rcases hmem with h2 | h2 <;> (rw [h2]; rfl)
  · rw [hm] at hmem
    simp at hmem

/-- C3: in dry-run, no run of `CheckRepo` — in any metadata mode, for any
repository and any client behaviour — ever calls `CreateBranch`,
`CreateOrUpdateFile`, `CreatePullRequest`, or `SetCustomPropertyValues`. -/
theorem CheckRepo_dry_run_no_writes (e : Checker.Engine) (c : Checker.Client)
    (owner repo : String) (hdry : e.dryRun = true) :
    ∀ eff ∈ (Checker.CheckRepo e c owner repo).2,
      Checker.isForbiddenInDryRun eff = false := by
  intro eff hmem
  unfold Checker.CheckRepo at hmem
  rcases hrepo : c.getRepository owner repo with err | repoInfo
  · rw [hrepo] at hmem; simp at hmem
  · rw [hrepo] at hmem
    dsimp only at hmem
    cases hskip : Checker.shouldSkip e repoInfo
    · rw [hskip] at hmem
      simp only [Bool.false_eq_true, if_false] at hmem
      rcases hprs : c.listOpenPullRequests owner repo with err | openPRs
      · rw [hprs] at hmem; simp at hmem
      · rw [hprs] at hmem
        dsimp only at hmem
        rcases hfm : Checker.findMissingFiles e c owner repo openPRs with ⟨resFM, trFM⟩
        rw [hfm] at hmem
        have hfmEff : ∀ x ∈ trFM, ∃ n, x = Checker.Effect.incFilesMissing n := by
          intro x hx
          exact findMissingFilesAux_effects c owner repo openPRs
            (Checker.EnabledRules e.registry) x (by rw [show Checker.findMissingFilesAux c
              owner repo openPRs (Checker.EnabledRules e.registry) = (resFM, trFM) from hfm]; exact hx)
        cases resFM with
        | error err =>
          dsimp only at hmem
          rcases hfmEff eff hmem with ⟨n, hn⟩
          rw [hn]; rfl
        | ok missing =>
          rw [hdry] at hmem
          dsimp only at hmem
          cases hlen : (missing.length == 0) <;> rw [hlen] at hmem <;>
            simp only [Bool.false_eq_true, if_false, if_true] at hmem <;>
            rcases hcc : Checker.checkCustomPropertiesIfEnabled e c owner repo
              repoInfo.defaultRef openPRs with ⟨res3, tr3⟩ <;>
            rw [hcc] at hmem <;> dsimp only at hmem <;>
            rw [List.append_nil] at hmem <;>
            rcases List.mem_append.mp hmem with h | h
          · rcases hfmEff eff h with ⟨n, hn⟩; rw [hn]; rfl
          · exact checkCustomPropertiesIfEnabled_dry_effects e c owner repo
              repoInfo.defaultRef openPRs hdry eff (by rw [hcc]; exact h)
          · rcases hfmEff eff h with ⟨n, hn⟩; rw [hn]; rfl
          · exact checkCustomPropertiesIfEnabled_dry_effects e c owner repo
              repoInfo.defaultRef openPRs hdry eff (by rw [hcc]; exact h)
    · rw [hskip] at hmem
      simp at hmem

/-- A repository with a stale `repo-guardian/add-catalog-info` branch, no
open PRs, no required files, no catalog file, and no current properties. -/
def clientFull : Checker.Client :=
  { getContents := fun _ _ _ => Except.ok false,
    listOpenPullRequests := fun _ _ => Except.ok [],
    getRepository := fun _ _ =>
      Except.ok { owner := "acme", name := "svc", archived := false, fork := false,
                  hasBranch := true, defaultRef := "main" },
    getBranchSHA := fun _ _ b =>
      Except.ok (if b == "repo-guardian/add-catalog-info" then "stalesha"
                 else if b == "main" then "tipsha" else ""),
    createBranch := fun _ _ _ _ => Except.ok (),
    deleteBranch := fun _ _ _ => Except.ok (),
    createOrUpdateFile := fun _ _ _ _ _ _ => Except.ok (),
    createPullRequest := fun _ _ _ _ _ _ =>
      Except.ok { number := 1, title := "", head := "", state := "open" },
    getFileContent := fun _ _ _ => Except.ok "",
    getCustomPropertyValues := fun _ _ => Except.ok [],
    setCustomPropertyValues := fun _ _ _ => Except.ok () }

/-- The api-mode engine with the default registry (not dry-run). -/
def engineC1 : Checker.Engine :=
  { registry := DefaultRules,
    templates := fun _ => Except.ok "TPL",
    skipForks := true, skipArchived := true, dryRun := false,
    customPropertiesMode := "api",
    yamlUnmarshal := fun _ => none }

/-- The same engine with dry-run enabled. -/
def engineDry : Checker.Engine :=
  { registry := DefaultRules,
    templates := fun _ => Except.ok "TPL",
    skipForks := true, skipArchived := true, dryRun := true,
    customPropertiesMode := "api",
    yamlUnmarshal := fun _ => none }

/-- Witness for C3 at a concrete repository that would otherwise get file
commits, two PRs, a branch and a property write: in dry-run no forbidden
client call appears in the trace. -/
theorem CheckRepo_dry_run_no_writes_witness :
    ((Checker.CheckRepo engineDry clientFull "acme" "svc").2.all
      fun eff => !Checker.isForbiddenInDryRun eff) = true := by
  rw [List.all_eq_true]
  intro eff hmem
  have h := CheckRepo_dry_run_no_writes engineDry clientFull "acme" "svc" rfl eff hmem
  simp [h]

/-! ## Claim C1 — stale-branch deletion order

The ordering property is expressed by a left-to-right scan of the effect
trace: `deleteBeforeCreateScan isCreate b tr` is true iff no effect
selected by `isCreate` occurs before the first `DeleteBranch` of branch `b`
(and, when no such deletion occurs, no selected effect occurs at all).
With `isCreateAnyBranch` this is the claim as stated — the stale branch is
deleted before *any* branch creation; with `isCreateBranchOf b` it is the
amended claim — before any creation *of that same branch*. -/

/-- Selects every `CreateBranch` call. -/
def Checker.isCreateAnyBranch : Checker.Effect → Bool
  | Checker.Effect.createBranch _ _ _ _ => true
  | _ => false

/-- Selects `CreateBranch` calls for the branch `b`. -/
def Checker.isCreateBranchOf (b : String) : Checker.Effect → Bool
  | Checker.Effect.createBranch _ _ b2 _ => b2 == b
  | _ => false

/-- Selects `DeleteBranch` calls for the branch `b`. -/
def Checker.isDeleteBranchOf (b : String) : Checker.Effect → Bool
  | Checker.Effect.deleteBranch _ _ b2 => b2 == b
  | _ => false

/-- True iff no `isCreate`-selected effect occurs before the first
deletion of branch `b` in the trace. -/
def Checker.deleteBeforeCreateScan (isCreate : Checker.Effect → Bool) (b : String) :
    List Checker.Effect → Bool
  | [] => true
  | eff :: rest =>
    if isCreate eff then false
    else if Checker.isDeleteBranchOf b eff then true
    else Checker.deleteBeforeCreateScan isCreate b rest

/-- A trace with no selected creation passes the scan. -/
theorem scan_true_of_no_create (isCreate : Checker.Effect → Bool) (b : String) :
    ∀ tr : List Checker.Effect, (∀ eff ∈ tr, isCreate eff = false) →
      Checker.deleteBeforeCreateScan isCreate b tr = true := by
  intro tr
  induction tr with
  | nil => intro _; rfl
  | cons eff rest ih =>
    intro h
    unfold Checker.deleteBeforeCreateScan
    rw [h eff (List.mem_cons_self _ _)]
    simp only [Bool.false_eq_true, if_false]
    split
    · rfl
    · exact ih fun x hx => h x (List.mem_cons_of_mem _ hx)

/-- Prepending creation-free effects preserves a passing scan. -/
theorem scan_append_of_no_create_left (isCreate : Checker.Effect → Bool) (b : String) :
    ∀ A B : List Checker.Effect, (∀ eff ∈ A, isCreate eff = false) →
      Checker.deleteBeforeCreateScan isCreate b B = true →
      Checker.deleteBeforeCreateScan isCreate b (A ++ B) = true := by
  intro A
  induction A with
  | nil => intro B _ hB; exact hB
  | cons eff rest ih =>
    intro B hA hB
    rw [List.cons_append]
    unfold Checker.deleteBeforeCreateScan
    rw [hA eff (List.mem_cons_self _ _)]
    simp only [Bool.false_eq_true, if_false]
    split
    · rfl
    · exact ih B (fun x hx => hA x (List.mem_cons_of_mem _ hx)) hB

/-- Appending creation-free effects preserves a passing scan. -/
theorem scan_append_of_true_left (isCreate : Checker.Effect → Bool) (b : String) :
    ∀ A B : List Checker.Effect, Checker.deleteBeforeCreateScan isCreate b A = true →
      (∀ eff ∈ B, isCreate eff = false) →
      Checker.deleteBeforeCreateScan isCreate b (A ++ B) = true := by
  intro A
  induction A with
  | nil => intro B _ hB; exact scan_true_of_no_create isCreate b B hB
  | cons eff rest ih =>
    intro B hA hB
    rw [List.cons_append]
    unfold Checker.deleteBeforeCreateScan
    unfold Checker.deleteBeforeCreateScan at hA
    cases hc : isCreate eff
    · rw [hc] at hA
      simp only [Bool.false_eq_true, if_false] at hA
      simp only [Bool.false_eq_true, if_false]
      cases hd : Checker.isDeleteBranchOf b eff
      · rw [hd] at hA
        simp only [Bool.false_eq_true, if_false] at hA
        simp only [Bool.false_eq_true, if_false]
        exact ih B hA hB
      · simp
    · rw [hc] at hA
      simp at hA

/-- A trace that starts by deleting `b` passes the scan whatever follows. -/
theorem scan_cons_delete (isCreate : Checker.Effect → Bool) (b : String)
    (eff : Checker.Effect) (tr : List Checker.Effect)
    (hnc : isCreate eff = false) (hd : Checker.isDeleteBranchOf b eff = true) :
    Checker.deleteBeforeCreateScan isCreate b (eff :: tr) = true := by
  unfold Checker.deleteBeforeCreateScan
  rw [hnc, hd]
  simp

/-- The file-commit loop records only `CreateOrUpdateFile` calls: no branch
creation or deletion. -/
theorem commitMissingFiles_effects (e : Checker.Engine) (c : Checker.Client)
    (owner repo : String) :
    ∀ rules : List Checker.FileRule,
      ∀ eff ∈ (Checker.commitMissingFiles e c owner repo rules).2,
        Checker.isCreateAnyBranch eff = false ∧
        ∀ b, Checker.isDeleteBranchOf b eff = false := by
  intro rules
  induction rules with
  | nil => intro eff h; simp [Checker.commitMissingFiles] at h
  | cons rule rest ih =>
    intro eff h
    simp only [Checker.commitMissingFiles] at h
    rcases ht : e.templates rule.defaultTemplateName with err | content
    · rw [ht] at h; simp at h
    · rw [ht] at h
      dsimp only at h
      rcases hcf : c.createOrUpdateFile owner repo Checker.BranchName rule.targetPath
        content ("chore: add " ++ rule.targetPath) with err | u
      · rw [hcf] at h
        simp only [List.mem_singleton] at h
        rw [h]
        exact ⟨rfl, fun b => rfl⟩
      · rw [hcf] at h
        dsimp only at h
        rcases hrec : Checker.commitMissingFiles e c owner repo rest with ⟨res, tr⟩
        rw [hrec] at h
        dsimp only at h
        rcases List.mem_cons.mp h with h2 | h2
        · rw [h2]
          exact ⟨rfl, fun b => rfl⟩
        · exact ih eff (by rw [hrec]; exact h2)

/-- The commit-and-PR tail records no branch creation or deletion. -/
theorem commitAndPR_effects (e : Checker.Engine) (c : Checker.Client)
    (owner repo defaultBranch : String) (missing : List Checker.FileRule)
    (existingPR : Option Checker.PullRequest) :
    ∀ eff ∈ (Checker.commitAndPR e c owner repo defaultBranch missing existingPR).2,
      Checker.isCreateAnyBranch eff = false ∧
      ∀ b, Checker.isDeleteBranchOf b eff = false := by
  intro eff h
  unfold Checker.commitAndPR at h
  rcases hcm : Checker.commitMissingFiles e c owner repo missing with ⟨res, tr⟩
  rw [hcm] at h
  have htr : ∀ x ∈ tr, Checker.isCreateAnyBranch x = false ∧
      ∀ b, Checker.isDeleteBranchOf b x = false :=
    fun x hx => commitMissingFiles_effects e c owner repo missing x (by rw [hcm]; exact hx)
  cases res with
  | error err =>
    dsimp only at h
    exact htr eff h
  | ok u =>
    dsimp only at h
    rcases existingPR with _ | pr
    · dsimp only at h
      rcases hpr : c.createPullRequest owner repo Checker.PRTitle
        (Checker.BuildPRBody missing) Checker.BranchName defaultBranch with err | created
      · rw [hpr] at h
        dsimp only at h
        rcases List.mem_append.mp h with h2 | h2
        · exact htr eff h2
        · simp only [List.mem_singleton] at h2
          rw [h2]
          exact ⟨rfl, fun b => rfl⟩
      · rw [hpr] at h
        dsimp only at h
        rcases List.mem_append.mp h with h2 | h2
        · exact htr eff h2
        · simp only [List.mem_cons, List.not_mem_nil, or_false] at h2
          rcases h2 with h2 | h2 <;> (rw [h2]; exact ⟨rfl, fun b => rfl⟩)
    · dsimp only at h
      rcases List.mem_append.mp h with h2 | h2
      · exact htr eff h2
      · simp only [List.mem_singleton] at h2
        rw [h2]
        exact ⟨rfl, fun b => rfl⟩

/-- Every branch creation in the post-cleanup tail of `createOrUpdatePR`
is of the `repo-guardian/add-missing-files` branch at the current
default-branch tip. -/
theorem createOrUpdatePRFromBase_creates (e : Checker.Engine) (c : Checker.Client)
    (owner repo defaultBranch : String) (missing : List Checker.FileRule)
    (existingPR : Option Checker.PullRequest) (branchSHA : String) :
    ∀ o r b2 base, Checker.Effect.createBranch o r b2 base ∈
        (Checker.createOrUpdatePRFromBase e c owner repo defaultBranch missing
          existingPR branchSHA).2 →
      o = owner ∧ r = repo ∧ b2 = Checker.BranchName ∧
        c.getBranchSHA owner repo defaultBranch = Except.ok base := by
  intro o r b2 base h
  unfold Checker.createOrUpdatePRFromBase at h
  rcases hbs : c.getBranchSHA owner repo defaultBranch with err | baseSHA
  · rw [hbs] at h; simp at h
  · rw [hbs] at h
    dsimp only at h
    cases hbe : (baseSHA == "")
    · rw [hbe] at h
      simp only [Bool.false_eq_true, if_false] at h
      cases hbr : (branchSHA == "")
      · rw [hbr] at h
        simp only [Bool.false_eq_true, if_false] at h
        have := (commitAndPR_effects e c owner repo defaultBranch missing existingPR _ h).1
        exact Bool.noConfusion this
      · rw [hbr] at h
        simp only [if_true] at h
        rcases hcb : c.createBranch owner repo Checker.BranchName baseSHA with err | u
        · rw [hcb] at h
          simp only [List.mem_singleton, Checker.Effect.createBranch.injEq] at h
          rcases h with ⟨h1, h2, h3, h4⟩
          refine ⟨h1, h2, h3, ?_⟩
          rw [h4]
        · rw [hcb] at h
          dsimp only at h
          rcases hfin : Checker.commitAndPR e c owner repo defaultBranch missing existingPR
            with ⟨res, tr⟩
          rw [hfin] at h
          dsimp only at h
          rcases List.mem_cons.mp h with h2 | h2
          · simp only [Checker.Effect.createBranch.injEq] at h2
            rcases h2 with ⟨h1, h2, h3, h4⟩
            refine ⟨h1, h2, h3, ?_⟩
            rw [h4]
          · have := (commitAndPR_effects e c owner repo defaultBranch missing existingPR
              _ (by rw [hfin]; exact h2)).1
            exact Bool.noConfusion this
    · rw [hbe] at h
      simp at h

/-- Every effect of `cleanupStaleBranch` is the deletion of its branch. -/
theorem cleanupStaleBranch_effects (c : Checker.Client) (owner repo branchName : String) :
    ∀ eff ∈ (Checker.cleanupStaleBranch c owner repo branchName).2,
      eff = Checker.Effect.deleteBranch owner repo branchName := by
  intro eff h
  unfold Checker.cleanupStaleBranch at h
  rcases hbs : c.getBranchSHA owner repo branchName with err | sha
  · rw [hbs] at h; simp at h
  · rw [hbs] at h
    dsimp only at h
    cases hne : (sha != "")
    · rw [hne] at h; simp at h
    · rw [hne] at h
      simp only [if_true] at h
      rcases hd : c.deleteBranch owner repo branchName with err | u <;> rw [hd] at h <;>
        simp only [List.mem_singleton] at h <;> exact h

/-- When the branch exists, `cleanupStaleBranch`'s first and only recorded
call is its deletion (whether or not the deletion succeeds). -/
theorem cleanupStaleBranch_stale_trace (c : Checker.Client)
    (owner repo branchName sha : String)
    (hsha : c.getBranchSHA owner repo branchName = Except.ok sha) (hstale : sha ≠ "") :
    (Checker.cleanupStaleBranch c owner repo branchName).2 =
      [Checker.Effect.deleteBranch owner repo branchName] := by
  unfold Checker.cleanupStaleBranch
  rw [hsha]
  dsimp only
  rw [show (sha != "") = true by simp [bne_iff_ne, hstale]]
  simp only [if_true]
  split <;> rfl

/-- A trace whose branch creations all target `bn` contains no creation of
a different branch `b`. -/
theorem no_create_of_ne (b bn : String) (hne : b ≠ bn) (tr : List Checker.Effect)
    (hmem : ∀ o r b2 base, Checker.Effect.createBranch o r b2 base ∈ tr → b2 = bn) :
    ∀ eff ∈ tr, Checker.isCreateBranchOf b eff = false := by
  intro eff h
  cases eff <;> try rfl
  case createBranch o r b2 base =>
    have hb2 := hmem _ _ _ _ h
    show (b2 == b) = false
    rw [hb2]
    exact beq_eq_false_iff_ne.mpr (Ne.symm hne)

/-- Every branch creation in `createOrUpdatePR` is of the
`repo-guardian/add-missing-files` branch at the default-branch tip. -/
theorem createOrUpdatePR_creates (e : Checker.Engine) (c : Checker.Client)
    (owner repo defaultBranch : String) (missing : List Checker.FileRule)
    (openPRs : List Checker.PullRequest) :
    ∀ o r b2 base, Checker.Effect.createBranch o r b2 base ∈
        (Checker.createOrUpdatePR e c owner repo defaultBranch missing openPRs).2 →
      o = owner ∧ r = repo ∧ b2 = Checker.BranchName ∧
        c.getBranchSHA owner repo defaultBranch = Except.ok base := by
  intro o r b2 base h
  unfold Checker.createOrUpdatePR at h
  rcases hbs : c.getBranchSHA owner repo Checker.BranchName with err | branchSHA
  · rw [hbs] at h; simp at h
  · rw [hbs] at h
    dsimp only at h
    cases hcond : (branchSHA != "" && (Checker.findOurPR openPRs).isNone)
    · rw [hcond] at h
      simp only [Bool.false_eq_true, if_false] at h
      exact createOrUpdatePRFromBase_creates e c owner repo defaultBranch missing
        (Checker.findOurPR openPRs) branchSHA o r b2 base h
    · rw [hcond] at h
      simp only [if_true] at h
      rcases hd : c.deleteBranch owner repo Checker.BranchName with err | u
      · rw [hd] at h; simp at h
      · rw [hd] at h
        dsimp only at h
        rcases hfb : Checker.createOrUpdatePRFromBase e c owner repo defaultBranch missing
          (Checker.findOurPR openPRs) "" with ⟨res, tr⟩
        rw [hfb] at h
        dsimp only at h
        rcases List.mem_cons.mp h with h2 | h2
        · exact absurd h2 (by simp)
        · exact createOrUpdatePRFromBase_creates e c owner repo defaultBranch missing
            (Checker.findOurPR openPRs) "" o r b2 base (by rw [hfb]; exact h2)

/-- When the `add-missing-files` branch exists and no open PR uses it,
`createOrUpdatePR` deletes it before any creation of that branch. -/
theorem createOrUpdatePR_scan (e : Checker.Engine) (c : Checker.Client)
    (owner repo defaultBranch : String) (missing : List Checker.FileRule)
    (openPRs : List Checker.PullRequest) (sha : String)
    (hsha : c.getBranchSHA owner repo Checker.BranchName = Except.ok sha)
    (hstale : sha ≠ "") (hnone : Checker.findOurPR openPRs = none) :
    Checker.deleteBeforeCreateScan (Checker.isCreateBranchOf Checker.BranchName)
      Checker.BranchName
      (Checker.createOrUpdatePR e c owner repo defaultBranch missing openPRs).2 = true := by
  unfold Checker.createOrUpdatePR
  rw [hsha]
  dsimp only
  rw [show (sha != "" && (Checker.findOurPR openPRs).isNone) = true by
    simp [bne_iff_ne, hstale, hnone]]
  simp only [if_true]
  rcases hd : c.deleteBranch owner repo Checker.BranchName with err | u
  · exact scan_cons_delete _ _ _ _ rfl (by simp [Checker.isDeleteBranchOf])
  · rcases hfb : Checker.createOrUpdatePRFromBase e c owner repo defaultBranch missing
      (Checker.findOurPR openPRs) "" with ⟨res, tr⟩
    dsimp only
    exact scan_cons_delete _ _ _ _ rfl (by simp [Checker.isDeleteBranchOf])

/-- Every branch creation in `handleGHAMode` is of the
`repo-guardian/set-custom-properties` branch at the default-branch tip. -/
theorem handleGHAMode_creates (e : Checker.Engine) (c : Checker.Client)
    (owner repo defaultBranch : String) (desired : Catalog.Properties)
    (openPRs : List Checker.PullRequest) :
    ∀ o r b2 base, Checker.Effect.createBranch o r b2 base ∈
        (Checker.handleGHAMode e c owner repo defaultBranch desired openPRs).2 →
      o = owner ∧ r = repo ∧ b2 = Checker.PropertiesBranchName ∧
        c.getBranchSHA owner repo defaultBranch = Except.ok base := by
  intro o r b2 base h
  unfold Checker.handleGHAMode at h
  rcases hfp : Checker.findPropertiesPR openPRs Checker.PropertiesBranchName with _ | pr
  · rw [hfp] at h
    dsimp only at h
    cases hdry : e.dryRun
    · rw [hdry] at h
      simp only [Bool.false_eq_true, if_false] at h
      rcases hcl : Checker.cleanupStaleBranch c owner repo Checker.PropertiesBranchName
        with ⟨res0, tr0⟩
      rw [hcl] at h
      have hcontra : Checker.Effect.createBranch o r b2 base ∈ tr0 → False := fun hx =>
        Checker.Effect.noConfusion
          (cleanupStaleBranch_effects c owner repo _ _ (by rw [hcl]; exact hx))
      cases res0 with
      | error err0 =>
        dsimp only at h
        exact (hcontra h).elim
      | ok u0 =>
        dsimp only at h
        rcases ht : e.templates "set-custom-properties" with err | tmpl
        · rw [ht] at h
          dsimp only at h
          exact (hcontra h).elim
        · rw [ht] at h
          dsimp only at h
          rcases hbs : c.getBranchSHA owner repo defaultBranch with err | baseSHA
          · rw [hbs] at h
            dsimp only at h
            exact (hcontra h).elim
          · rw [hbs] at h
            dsimp only at h
            cases hbe : (baseSHA == "")
            · rw [hbe] at h
              simp only [Bool.false_eq_true, if_false] at h
              rcases hcb : c.createBranch owner repo Checker.PropertiesBranchName baseSHA
                with err | u
              · rw [hcb] at h
                dsimp only at h
                rcases List.mem_append.mp h with h2 | h2
                · exact (hcontra h2).elim
                · simp only [List.mem_singleton] at h2
                  injection h2 with e1 e2 e3 e4
                  exact ⟨e1, e2, e3, by rw [e4]; (try exact hbs)⟩
              · rw [hcb] at h
                dsimp only at h
                rcases hcf : c.createOrUpdateFile owner repo Checker.PropertiesBranchName
                  ".github/workflows/set-custom-properties.yml"
                  (Checker.renderTemplate tmpl
                    [("OWNER_VALUE", desired.owner), ("COMPONENT_VALUE", desired.component),
                     ("JIRA_PROJECT_VALUE", desired.jiraProject),
                     ("JIRA_LABEL_VALUE", desired.jiraLabel)])
                  "chore: add workflow to set custom properties" with err | u2
                · rw [hcf] at h
                  dsimp only at h
                  rcases List.mem_append.mp h with h2 | h2
                  · exact (hcontra h2).elim
                  · simp only [List.mem_cons, List.not_mem_nil, or_false] at h2
                    rcases h2 with h2 | h2
                    · injection h2 with e1 e2 e3 e4
                      exact ⟨e1, e2, e3, by rw [e4]; (try exact hbs)⟩
                    · exact Checker.Effect.noConfusion h2
                · rw [hcf] at h
                  dsimp only at h
                  rcases hpr2 : c.createPullRequest owner repo Checker.PropertiesPRTitle
                    (Checker.buildPropertiesPRBody (some desired) "github-action")
                    Checker.PropertiesBranchName defaultBranch with err | created
                  · rw [hpr2] at h
                    dsimp only at h
                    rcases List.mem_append.mp h with h2 | h2
                    · exact (hcontra h2).elim
                    · simp only [List.mem_cons, List.not_mem_nil, or_false] at h2
                      rcases h2 with h2 | h2 | h2
                      · injection h2 with e1 e2 e3 e4
                        exact ⟨e1, e2, e3, by rw [e4]; (try exact hbs)⟩
                      · exact Checker.Effect.noConfusion h2
                      · exact Checker.Effect.noConfusion h2
                  · rw [hpr2] at h
                    dsimp only at h
                    rcases List.mem_append.mp h with h2 | h2
                    · exact (hcontra h2).elim
                    · simp only [List.mem_cons, List.not_mem_nil, or_false] at h2
                      rcases h2 with h2 | h2 | h2 | h2
                      · injection h2 with e1 e2 e3 e4
                        exact ⟨e1, e2, e3, by rw [e4]; (try exact hbs)⟩
                      · exact Checker.Effect.noConfusion h2
                      · exact Checker.Effect.noConfusion h2
                      · exact Checker.Effect.noConfusion h2
            · rw [hbe] at h
              simp only [if_true] at h
              exact (hcontra h).elim
    · rw [hdry] at h
      simp at h
  · rw [hfp] at h
    simp at h

/-- Every branch creation in `createCatalogInfoPR` is of the
`repo-guardian/add-catalog-info` branch at the default-branch tip. -/
theorem createCatalogInfoPR_creates (e : Checker.Engine) (c : Checker.Client)
    (owner repo defaultBranch : String) (openPRs : List Checker.PullRequest) :
    ∀ o r b2 base, Checker.Effect.createBranch o r b2 base ∈
        (Checker.createCatalogInfoPR e c owner repo defaultBranch openPRs).2 →
      o = owner ∧ r = repo ∧ b2 = Checker.CatalogInfoBranchName ∧
        c.getBranchSHA owner repo defaultBranch = Except.ok base := by
  intro o r b2 base h
  unfold Checker.createCatalogInfoPR at h
  rcases hfp : Checker.findPropertiesPR openPRs Checker.CatalogInfoBranchName with _ | pr
  · rw [hfp] at h
    dsimp only at h
    cases hdry : e.dryRun
    · rw [hdry] at h
      simp only [Bool.false_eq_true, if_false] at h
      rcases hcl : Checker.cleanupStaleBranch c owner repo Checker.CatalogInfoBranchName
        with ⟨res0, tr0⟩
      rw [hcl] at h
      have hcontra : Checker.Effect.createBranch o r b2 base ∈ tr0 → False := fun hx =>
        Checker.Effect.noConfusion
          (cleanupStaleBranch_effects c owner repo _ _ (by rw [hcl]; exact hx))
      cases res0 with
      | error err0 =>
        dsimp only at h
        exact (hcontra h).elim
      | ok u0 =>
        dsimp only at h
        rcases ht : e.templates "catalog-info" with err | tmpl
        · rw [ht] at h
          dsimp only at h
          exact (hcontra h).elim
        · rw [ht] at h
          dsimp only at h
          rcases hbs : c.getBranchSHA owner repo defaultBranch with err | baseSHA
          · rw [hbs] at h
            dsimp only at h
            exact (hcontra h).elim
          · rw [hbs] at h
            dsimp only at h
            cases hbe : (baseSHA == "")
            · rw [hbe] at h
              simp only [Bool.false_eq_true, if_false] at h
              rcases hcb : c.createBranch owner repo Checker.CatalogInfoBranchName baseSHA
                with err | u
              · rw [hcb] at h
                dsimp only at h
                rcases List.mem_append.mp h with h2 | h2
                · exact (hcontra h2).elim
                · simp only [List.mem_singleton] at h2
                  injection h2 with e1 e2 e3 e4
                  exact ⟨e1, e2, e3, by rw [e4]; (try exact hbs)⟩
              · rw [hcb] at h
                dsimp only at h
                rcases hcf : c.createOrUpdateFile owner repo Checker.CatalogInfoBranchName
                  "catalog-info.yaml"
                  (Checker.renderTemplate tmpl [("REPO_NAME", repo), ("ORG_NAME", owner)])
                  "chore: add catalog-info.yaml" with err | u2
                · rw [hcf] at h
                  dsimp only at h
                  rcases List.mem_append.mp h with h2 | h2
                  · exact (hcontra h2).elim
                  · simp only [List.mem_cons, List.not_mem_nil, or_false] at h2
                    rcases h2 with h2 | h2
                    · injection h2 with e1 e2 e3 e4
                      exact ⟨e1, e2, e3, by rw [e4]; (try exact hbs)⟩
                    · exact Checker.Effect.noConfusion h2
                · rw [hcf] at h
                  dsimp only at h
                  rcases hpr2 : c.createPullRequest owner repo Checker.CatalogInfoPRTitle
                    (Checker.buildPropertiesPRBody none "api")
                    Checker.CatalogInfoBranchName defaultBranch with err | created
                  · rw [hpr2] at h
                    dsimp only at h
                    rcases List.mem_append.mp h with h2 | h2
                    · exact (hcontra h2).elim
                    · simp only [List.mem_cons, List.not_mem_nil, or_false] at h2
                      rcases h2 with h2 | h2 | h2
                      · injection h2 with e1 e2 e3 e4
                        exact ⟨e1, e2, e3, by rw [e4]; (try exact hbs)⟩
                      · exact Checker.Effect.noConfusion h2
                      · exact Checker.Effect.noConfusion h2
                  · rw [hpr2] at h
                    dsimp only at h
                    rcases List.mem_append.mp h with h2 | h2
                    · exact (hcontra h2).elim
                    · simp only [List.mem_cons, List.not_mem_nil, or_false] at h2
                      rcases h2 with h2 | h2 | h2 | h2
                      · injection h2 with e1 e2 e3 e4
                        exact ⟨e1, e2, e3, by rw [e4]; (try exact hbs)⟩
                      · exact Checker.Effect.noConfusion h2
                      · exact Checker.Effect.noConfusion h2
                      · exact Checker.Effect.noConfusion h2
            · rw [hbe] at h
              simp only [if_true] at h
              exact (hcontra h).elim
    · rw [hdry] at h
      simp at h
  · rw [hfp] at h
    simp at h

/-- When the `set-custom-properties` branch exists and no open PR uses it,
`handleGHAMode` deletes it before any creation of that branch. -/
theorem handleGHAMode_scan (e : Checker.Engine) (c : Checker.Client)
    (owner repo defaultBranch : String) (desired : Catalog.Properties)
    (openPRs : List Checker.PullRequest) (sha : String)
    (hnone : Checker.findPropertiesPR openPRs Checker.PropertiesBranchName = none)
    (hsha : c.getBranchSHA owner repo Checker.PropertiesBranchName = Except.ok sha)
    (hstale : sha ≠ "") :
    Checker.deleteBeforeCreateScan (Checker.isCreateBranchOf Checker.PropertiesBranchName)
      Checker.PropertiesBranchName
      (Checker.handleGHAMode e c owner repo defaultBranch desired openPRs).2 = true := by
  unfold Checker.handleGHAMode
  rw [hnone]
  dsimp only
  cases hdry : e.dryRun
  · simp only [Bool.false_eq_true, if_false]
    rcases hcl : Checker.cleanupStaleBranch c owner repo Checker.PropertiesBranchName
      with ⟨res0, tr0⟩
    have htr0 : tr0 = [Checker.Effect.deleteBranch owner repo Checker.PropertiesBranchName] := by
      have hh := cleanupStaleBranch_stale_trace c owner repo
        Checker.PropertiesBranchName sha hsha hstale
      rw [hcl] at hh
      exact hh
    subst htr0
    have hX : ∀ X, Checker.deleteBeforeCreateScan
        (Checker.isCreateBranchOf Checker.PropertiesBranchName)
        Checker.PropertiesBranchName
        (Checker.Effect.deleteBranch owner repo Checker.PropertiesBranchName :: X) = true :=
      fun X => scan_cons_delete _ _ _ _ rfl (by simp [Checker.isDeleteBranchOf])
    cases res0 with
    | error err0 => exact hX []
    | ok u0 =>
      dsimp only
      repeat' split
      all_goals exact hX _
  · rfl

/-- When the `add-catalog-info` branch exists and no open PR uses it,
`createCatalogInfoPR` deletes it before any creation of that branch. -/
theorem createCatalogInfoPR_scan (e : Checker.Engine) (c : Checker.Client)
    (owner repo defaultBranch : String) (openPRs : List Checker.PullRequest) (sha : String)
    (hnone : Checker.findPropertiesPR openPRs Checker.CatalogInfoBranchName = none)
    (hsha : c.getBranchSHA owner repo Checker.CatalogInfoBranchName = Except.ok sha)
    (hstale : sha ≠ "") :
    Checker.deleteBeforeCreateScan (Checker.isCreateBranchOf Checker.CatalogInfoBranchName)
      Checker.CatalogInfoBranchName
      (Checker.createCatalogInfoPR e c owner repo defaultBranch openPRs).2 = true := by
  unfold Checker.createCatalogInfoPR
  rw [hnone]
  dsimp only
  cases hdry : e.dryRun
  · simp only [Bool.false_eq_true, if_false]
    rcases hcl : Checker.cleanupStaleBranch c owner repo Checker.CatalogInfoBranchName
      with ⟨res0, tr0⟩
    have htr0 : tr0 = [Checker.Effect.deleteBranch owner repo Checker.CatalogInfoBranchName] := by
      have hh := cleanupStaleBranch_stale_trace c owner repo
        Checker.CatalogInfoBranchName sha hsha hstale
      rw [hcl] at hh
      exact hh
    subst htr0
    have hX : ∀ X, Checker.deleteBeforeCreateScan
        (Checker.isCreateBranchOf Checker.CatalogInfoBranchName)
        Checker.CatalogInfoBranchName
        (Checker.Effect.deleteBranch owner repo Checker.CatalogInfoBranchName :: X) = true :=
      fun X => scan_cons_delete _ _ _ _ rfl (by simp [Checker.isDeleteBranchOf])
    cases res0 with
    | error err0 => exact hX []
    | ok u0 =>
      dsimp only
      repeat' split
      all_goals exact hX _
  · rfl

/-- Every branch creation in `handleAPIMode` is of the
`repo-guardian/add-catalog-info` branch at the default-branch tip. -/
theorem handleAPIMode_creates (e : Checker.Engine) (c : Checker.Client)
    (owner repo defaultBranch : String) (desired : Catalog.Properties)
    (catalogFound : Bool) (openPRs : List Checker.PullRequest) :
    ∀ o r b2 base, Checker.Effect.createBranch o r b2 base ∈
        (Checker.handleAPIMode e c owner repo defaultBranch desired catalogFound openPRs).2 →
      o = owner ∧ r = repo ∧ b2 = Checker.CatalogInfoBranchName ∧
        c.getBranchSHA owner repo defaultBranch = Except.ok base := by
  intro o r b2 base h
  unfold Checker.handleAPIMode at h
  cases hdry : e.dryRun
  · rw [hdry] at h
    simp only [Bool.false_eq_true, if_false] at h
    rcases hset : c.setCustomPropertyValues owner repo
      (Checker.desiredToPropertyValues desired) with err | u
    · rw [hset] at h
      simp at h
    · rw [hset] at h
      dsimp only at h
      cases hcf : catalogFound
      · rw [hcf] at h
        simp only [Bool.not_false, if_true] at h
        rcases hcpr : Checker.createCatalogInfoPR e c owner repo defaultBranch openPRs
          with ⟨resC, trC⟩
        rw [hcpr] at h
        dsimp only at h
        rcases List.mem_cons.mp h with h2 | h2
        · exact Checker.Effect.noConfusion h2
        · rcases List.mem_cons.mp h2 with h3 | h3
          · exact Checker.Effect.noConfusion h3
          · exact createCatalogInfoPR_creates e c owner repo defaultBranch openPRs
              o r b2 base (by rw [hcpr]; exact h3)
      · rw [hcf] at h
        simp at h
  · rw [hdry] at h
    simp at h

/-- When the `add-catalog-info` branch exists and no open PR uses it,
`handleAPIMode` deletes it before any creation of that branch. -/
theorem handleAPIMode_scan (e : Checker.Engine) (c : Checker.Client)
    (owner repo defaultBranch : String) (desired : Catalog.Properties)
    (catalogFound : Bool) (openPRs : List Checker.PullRequest) (sha : String)
    (hnone : Checker.findPropertiesPR openPRs Checker.CatalogInfoBranchName = none)
    (hsha : c.getBranchSHA owner repo Checker.CatalogInfoBranchName = Except.ok sha)
    (hstale : sha ≠ "") :
    Checker.deleteBeforeCreateScan (Checker.isCreateBranchOf Checker.CatalogInfoBranchName)
      Checker.CatalogInfoBranchName
      (Checker.handleAPIMode e c owner repo defaultBranch desired catalogFound openPRs).2 = true := by
  unfold Checker.handleAPIMode
  cases hdry : e.dryRun
  · simp only [Bool.false_eq_true, if_false]
    rcases hset : c.setCustomPropertyValues owner repo
      (Checker.desiredToPropertyValues desired) with err | u
    · rfl
    · dsimp only
      cases hcf : catalogFound
      · simp only [Bool.not_false, if_true]
        rcases hcpr : Checker.createCatalogInfoPR e c owner repo defaultBranch openPRs
          with ⟨resC, trC⟩
        dsimp only
        have hs := createCatalogInfoPR_scan e c owner repo defaultBranch openPRs sha
          hnone hsha hstale
        rw [hcpr] at hs
        simp only [Checker.deleteBeforeCreateScan, Checker.isCreateBranchOf,
          Checker.isDeleteBranchOf]
        exact hs
      · rfl
  · rfl

/-- The open-PR list has no PR from branch `b` iff `findPropertiesPR`
misses. -/
theorem findPropertiesPR_none (openPRs : List Checker.PullRequest) (b : String)
    (hnopr : ∀ pr ∈ openPRs, pr.head ≠ b) :
    Checker.findPropertiesPR openPRs b = none := by
  unfold Checker.findPropertiesPR
  apply List.find?_eq_none.mpr
  intro x hx
  simp only [beq_iff_eq]
  exact hnopr x hx

/-- Every branch creation in the post-read metadata step is of one of the
two reserved metadata branches, at the default-branch tip. -/
theorem checkCustomPropertiesWithContent_creates (e : Checker.Engine) (c : Checker.Client)
    (owner repo defaultBranch : String) (openPRs : List Checker.PullRequest)
    (content : String) (catalogFound : Bool) :
    ∀ o r b2 base, Checker.Effect.createBranch o r b2 base ∈
        (Checker.checkCustomPropertiesWithContent e c owner repo defaultBranch openPRs
          content catalogFound).2 →
      o = owner ∧ r = repo ∧
        (b2 = Checker.PropertiesBranchName ∨ b2 = Checker.CatalogInfoBranchName) ∧
        c.getBranchSHA owner repo defaultBranch = Except.ok base := by
  intro o r b2 base h
  unfold Checker.checkCustomPropertiesWithContent at h
  rcases hcur : c.getCustomPropertyValues owner repo with err | current
  · rw [hcur] at h; simp at h
  · rw [hcur] at h
    dsimp only at h
    cases hdiff : Checker.diffProperties (Catalog.Parse e.yamlUnmarshal content) current
    · rw [hdiff] at h
      simp at h
    · rw [hdiff] at h
      simp only [Bool.not_true, Bool.false_eq_true, if_false] at h
      cases hm1 : (e.customPropertiesMode == "github-action")
      · rw [hm1] at h
        simp only [Bool.false_eq_true, if_false] at h
        cases hm2 : (e.customPropertiesMode == "api")
        · rw [hm2] at h
          simp at h
        · rw [hm2] at h
          simp only [if_true] at h
          rcases handleAPIMode_creates e c owner repo defaultBranch _ catalogFound openPRs
            o r b2 base h with ⟨h1, h2, h3, h4⟩
          exact ⟨h1, h2, Or.inr h3, h4⟩
      · rw [hm1] at h
        simp only [if_true] at h
        rcases handleGHAMode_creates e c owner repo defaultBranch _ openPRs
          o r b2 base h with ⟨h1, h2, h3, h4⟩
        exact ⟨h1, h2, Or.inl h3, h4⟩

/-- For each reserved branch, when it exists and no open PR uses it, the
post-read metadata step deletes it before any creation of that branch. -/
theorem checkCustomPropertiesWithContent_scan (e : Checker.Engine) (c : Checker.Client)
    (owner repo defaultBranch b : String) (openPRs : List Checker.PullRequest)
    (content : String) (catalogFound : Bool) (sha : String)
    (hb : b = Checker.BranchName ∨ b = Checker.PropertiesBranchName ∨
      b = Checker.CatalogInfoBranchName)
    (hsha : c.getBranchSHA owner repo b = Except.ok sha) (hstale : sha ≠ "")
    (hnopr : ∀ pr ∈ openPRs, pr.head ≠ b) :
    Checker.deleteBeforeCreateScan (Checker.isCreateBranchOf b) b
      (Checker.checkCustomPropertiesWithContent e c owner repo defaultBranch openPRs
        content catalogFound).2 = true := by
  unfold Checker.checkCustomPropertiesWithContent
  rcases hcur : c.getCustomPropertyValues owner repo with err | current
  · rfl
  · dsimp only
    cases hdiff : Checker.diffProperties (Catalog.Parse e.yamlUnmarshal content) current
    · rfl
    · simp only [Bool.not_true, Bool.false_eq_true, if_false]
      cases hm1 : (e.customPropertiesMode == "github-action")
      · simp only [Bool.false_eq_true, if_false]
        cases hm2 : (e.customPropertiesMode == "api")
        · rfl
        · simp only [if_true]
          rcases hb with hb | hb | hb
          · subst hb
            exact scan_true_of_no_create _ _ _
              (no_create_of_ne _ _ (by decide) _ fun o r b2 base hmem =>
                (handleAPIMode_creates e c owner repo defaultBranch _ catalogFound openPRs
                  o r b2 base hmem).2.2.1)
          · subst hb
            exact scan_true_of_no_create _ _ _
              (no_create_of_ne _ _ (by decide) _ fun o r b2 base hmem =>
                (handleAPIMode_creates e c owner repo defaultBranch _ catalogFound openPRs
                  o r b2 base hmem).2.2.1)
          · subst hb
            exact handleAPIMode_scan e c owner repo defaultBranch _ catalogFound openPRs sha
              (findPropertiesPR_none openPRs _ hnopr) hsha hstale
      · simp only [if_true]
        rcases hb with hb | hb | hb
        · subst hb
          exact scan_true_of_no_create _ _ _
            (no_create_of_ne _ _ (by decide) _ fun o r b2 base hmem =>
              (handleGHAMode_creates e c owner repo defaultBranch _ openPRs
                o r b2 base hmem).2.2.1)
        · subst hb
          exact handleGHAMode_scan e c owner repo defaultBranch _ openPRs sha
            (findPropertiesPR_none openPRs _ hnopr) hsha hstale
        · subst hb
          exact scan_true_of_no_create _ _ _
            (no_create_of_ne _ _ (by decide) _ fun o r b2 base hmem =>
              (handleGHAMode_creates e c owner repo defaultBranch _ openPRs
                o r b2 base hmem).2.2.1)

/-- Stepping the scan over an effect that neither creates nor deletes. -/
theorem scan_cons_skip (isCreate : Checker.Effect → Bool) (b : String)
    (eff : Checker.Effect) (tr : List Checker.Effect)
    (h1 : isCreate eff = false) (h2 : Checker.isDeleteBranchOf b eff = false) :
    Checker.deleteBeforeCreateScan isCreate b (eff :: tr) =
      Checker.deleteBeforeCreateScan isCreate b tr := by
  have hstep : Checker.deleteBeforeCreateScan isCreate b (eff :: tr) =
      if isCreate eff then false
      else if Checker.isDeleteBranchOf b eff then true
      else Checker.deleteBeforeCreateScan isCreate b tr := rfl
  rw [hstep, h1, h2]
  simp

/-- A trace whose branch creations all target one of `p`, `q` contains no
creation of a branch `b` distinct from both. -/
theorem no_create_of_ne_two (b p q : String) (hbp : b ≠ p) (hbq : b ≠ q)
    (tr : List Checker.Effect)
    (hmem : ∀ o r b2 base, Checker.Effect.createBranch o r b2 base ∈ tr →
      b2 = p ∨ b2 = q) :
    ∀ eff ∈ tr, Checker.isCreateBranchOf b eff = false := by
  intro eff h
  cases eff <;> try rfl
  case createBranch o r b2 base =>
    show (b2 == b) = false
    rcases hmem _ _ _ _ h with hb2 | hb2 <;> rw [hb2] <;>
      exact beq_eq_false_iff_ne.mpr (by first | exact Ne.symm hbp | exact Ne.symm hbq)

/-- Every branch creation in `CheckCustomProperties` is of one of the two
reserved metadata branches, at the default-branch tip. -/
theorem CheckCustomProperties_creates (e : Checker.Engine) (c : Checker.Client)
    (owner repo defaultBranch : String) (openPRs : List Checker.PullRequest) :
    ∀ o r b2 base, Checker.Effect.createBranch o r b2 base ∈
        (Checker.CheckCustomProperties e c owner repo defaultBranch openPRs).2 →
      o = owner ∧ r = repo ∧
        (b2 = Checker.PropertiesBranchName ∨ b2 = Checker.CatalogInfoBranchName) ∧
        c.getBranchSHA owner repo defaultBranch = Except.ok base := by
  intro o r b2 base h
  unfold Checker.CheckCustomProperties at h
  rcases h1 : c.getFileContent owner repo "catalog-info.yaml" with err | content0
  · rw [h1] at h; simp at h
  · rw [h1] at h
    dsimp only at h
    cases hne : (content0 != "")
    · rw [hne] at h
      simp only [Bool.false_eq_true, if_false] at h
      rcases h2 : c.getFileContent owner repo "catalog-info.yml" with err | content1
      · rw [h2] at h; simp at h
      · rw [h2] at h
        dsimp only at h
        rcases hwc : Checker.checkCustomPropertiesWithContent e c owner repo defaultBranch
          openPRs content1 (content1 != "") with ⟨res, tr⟩
        rw [hwc] at h
        dsimp only at h
        rcases List.mem_cons.mp h with h3 | h3
        · exact Checker.Effect.noConfusion h3
        · exact checkCustomPropertiesWithContent_creates e c owner repo defaultBranch
            openPRs content1 (content1 != "") o r b2 base (by rw [hwc]; exact h3)
    · rw [hne] at h
      simp only [if_true] at h
      rcases hwc : Checker.checkCustomPropertiesWithContent e c owner repo defaultBranch
        openPRs content0 true with ⟨res, tr⟩
      rw [hwc] at h
      dsimp only at h
      rcases List.mem_cons.mp h with h3 | h3
      · exact Checker.Effect.noConfusion h3
      · exact checkCustomPropertiesWithContent_creates e c owner repo defaultBranch
          openPRs content0 true o r b2 base (by rw [hwc]; exact h3)

/-- For each reserved branch, when it exists and no open PR uses it,
`CheckCustomProperties` deletes it before any creation of that branch. -/
theorem CheckCustomProperties_scan (e : Checker.Engine) (c : Checker.Client)
    (owner repo defaultBranch b : String) (openPRs : List Checker.PullRequest) (sha : String)
    (hb : b = Checker.BranchName ∨ b = Checker.PropertiesBranchName ∨
      b = Checker.CatalogInfoBranchName)
    (hsha : c.getBranchSHA owner repo b = Except.ok sha) (hstale : sha ≠ "")
    (hnopr : ∀ pr ∈ openPRs, pr.head ≠ b) :
    Checker.deleteBeforeCreateScan (Checker.isCreateBranchOf b) b
      (Checker.CheckCustomProperties e c owner repo defaultBranch openPRs).2 = true := by
  unfold Checker.CheckCustomProperties
  rcases h1 : c.getFileContent owner repo "catalog-info.yaml" with err | content0
  · rfl
  · dsimp only
    cases hne : (content0 != "")
    · simp only [Bool.false_eq_true, if_false]
      rcases h2 : c.getFileContent owner repo "catalog-info.yml" with err | content1
      · rfl
      · dsimp only
        rcases hwc : Checker.checkCustomPropertiesWithContent e c owner repo defaultBranch
          openPRs content1 (content1 != "") with ⟨res, tr⟩
        dsimp only
        rw [scan_cons_skip (Checker.isCreateBranchOf b) b
          Checker.Effect.incPropertiesChecked tr rfl rfl]
        have hs := checkCustomPropertiesWithContent_scan e c owner repo defaultBranch b
          openPRs content1 (content1 != "") sha hb hsha hstale hnopr
        rw [hwc] at hs
        exact hs
    · simp only [if_true]
      rcases hwc : Checker.checkCustomPropertiesWithContent e c owner repo defaultBranch
        openPRs content0 true with ⟨res, tr⟩
      dsimp only
      rw [scan_cons_skip (Checker.isCreateBranchOf b) b
        Checker.Effect.incPropertiesChecked tr rfl rfl]
      have hs := checkCustomPropertiesWithContent_scan e c owner repo defaultBranch b
        openPRs content0 true sha hb hsha hstale hnopr
      rw [hwc] at hs
      exact hs

/-- Branch creations of the guarded metadata step. -/
theorem checkCustomPropertiesIfEnabled_creates (e : Checker.Engine) (c : Checker.Client)
    (owner repo defaultBranch : String) (openPRs : List Checker.PullRequest) :
    ∀ o r b2 base, Checker.Effect.createBranch o r b2 base ∈
        (Checker.checkCustomPropertiesIfEnabled e c owner repo defaultBranch openPRs).2 →
      o = owner ∧ r = repo ∧
        (b2 = Checker.PropertiesBranchName ∨ b2 = Checker.CatalogInfoBranchName) ∧
        c.getBranchSHA owner repo defaultBranch = Except.ok base := by
  intro o r b2 base h
  unfold Checker.checkCustomPropertiesIfEnabled at h
  cases hm : (e.customPropertiesMode == "")
  · rw [hm] at h
    simp only [Bool.false_eq_true, if_false] at h
    rcases hcc : Checker.CheckCustomProperties e c owner repo defaultBranch openPRs
      with ⟨res, tr⟩
    rw [hcc] at h
    dsimp only at h
    exact CheckCustomProperties_creates e c owner repo defaultBranch openPRs o r b2 base
      (by rw [hcc]; exact h)
  · rw [hm] at h
    simp at h

/-- Stale-branch ordering for the guarded metadata step. -/
theorem checkCustomPropertiesIfEnabled_scan (e : Checker.Engine) (c : Checker.Client)
    (owner repo defaultBranch b : String) (openPRs : List Checker.PullRequest) (sha : String)
    (hb : b = Checker.BranchName ∨ b = Checker.PropertiesBranchName ∨
      b = Checker.CatalogInfoBranchName)
    (hsha : c.getBranchSHA owner repo b = Except.ok sha) (hstale : sha ≠ "")
    (hnopr : ∀ pr ∈ openPRs, pr.head ≠ b) :
    Checker.deleteBeforeCreateScan (Checker.isCreateBranchOf b) b
      (Checker.checkCustomPropertiesIfEnabled e c owner repo defaultBranch openPRs).2 = true := by
  unfold Checker.checkCustomPropertiesIfEnabled
  cases hm : (e.customPropertiesMode == "")
  · simp only [Bool.false_eq_true, if_false]
    rcases hcc : Checker.CheckCustomProperties e c owner repo defaultBranch openPRs
      with ⟨res, tr⟩
    dsimp only
    have hs := CheckCustomProperties_scan e c owner repo defaultBranch b openPRs sha
      hb hsha hstale hnopr
    rw [hcc] at hs
    exact hs
  · rfl

/-- `findOurPR` is `findPropertiesPR` at the file-rule branch name. -/
theorem findOurPR_eq (openPRs : List Checker.PullRequest) :
    Checker.findOurPR openPRs = Checker.findPropertiesPR openPRs Checker.BranchName := rfl

/-- Every branch creation in `CheckRepo` targets one of the three reserved
branches, on the checked repository, from the current default-branch tip. -/
theorem CheckRepo_creates_aux (e : Checker.Engine) (c : Checker.Client)
    (owner repo : String) (repoInfo : Checker.Repository)
    (hrepo : c.getRepository owner repo = Except.ok repoInfo) :
    ∀ o r b2 base, Checker.Effect.createBranch o r b2 base ∈
        (Checker.CheckRepo e c owner repo).2 →
      o = owner ∧ r = repo ∧
        (b2 = Checker.BranchName ∨ b2 = Checker.PropertiesBranchName ∨
          b2 = Checker.CatalogInfoBranchName) ∧
        c.getBranchSHA owner repo repoInfo.defaultRef = Except.ok base := by
  intro o r b2 base h
  unfold Checker.CheckRepo at h
  rw [hrepo] at h
  dsimp only at h
  cases hskip : Checker.shouldSkip e repoInfo
  · rw [hskip] at h
    simp only [Bool.false_eq_true, if_false] at h
    rcases hprs : c.listOpenPullRequests owner repo with err | openPRs
    · rw [hprs] at h; simp at h
    · rw [hprs] at h
      dsimp only at h
      rcases hfm : Checker.findMissingFiles e c owner repo openPRs with ⟨resFM, trFM⟩
      rw [hfm] at h
      have hFMnc : Checker.Effect.createBranch o r b2 base ∈ trFM → False := by
        intro hx
        rcases findMissingFilesAux_effects c owner repo openPRs
          (Checker.EnabledRules e.registry) _
          (by rw [show Checker.findMissingFilesAux c owner repo openPRs
            (Checker.EnabledRules e.registry) = (resFM, trFM) from hfm]; exact hx)
          with ⟨n, hn⟩
        exact Checker.Effect.noConfusion hn
      cases resFM with
      | error err => dsimp only at h; exact (hFMnc h).elim
      | ok missing =>
        dsimp only at h
        cases hlen : (missing.length == 0)
        · rw [hlen] at h
          simp only [Bool.false_eq_true, if_false] at h
          cases hdryE : e.dryRun
          · rw [hdryE] at h
            simp only [Bool.false_eq_true, if_false] at h
            rcases hco : Checker.createOrUpdatePR e c owner repo repoInfo.defaultRef
              missing openPRs with ⟨res2, tr2⟩
            rw [hco] at h
            cases res2 with
            | error err2 =>
              dsimp only at h
              rcases List.mem_append.mp h with h2 | h2
              · exact (hFMnc h2).elim
              · rcases createOrUpdatePR_creates e c owner repo repoInfo.defaultRef missing
                  openPRs o r b2 base (by rw [hco]; exact h2) with ⟨e1, e2, e3, e4⟩
                exact ⟨e1, e2, Or.inl e3, e4⟩
            | ok u2 =>
              dsimp only at h
              rcases hcp : Checker.checkCustomPropertiesIfEnabled e c owner repo
                repoInfo.defaultRef openPRs with ⟨res3, tr3⟩
              rw [hcp] at h
              dsimp only at h
              rcases List.mem_append.mp h with h2 | h2
              · rcases List.mem_append.mp h2 with h3 | h3
                · exact (hFMnc h3).elim
                · rcases createOrUpdatePR_creates e c owner repo repoInfo.defaultRef missing
                    openPRs o r b2 base (by rw [hco]; exact h3) with ⟨e1, e2, e3, e4⟩
                  exact ⟨e1, e2, Or.inl e3, e4⟩
              · rcases checkCustomPropertiesIfEnabled_creates e c owner repo
                  repoInfo.defaultRef openPRs o r b2 base (by rw [hcp]; exact h2)
                  with ⟨e1, e2, e3, e4⟩
                exact ⟨e1, e2, Or.inr e3, e4⟩
          · rw [hdryE] at h
            simp only [if_true] at h
            rcases hcp : Checker.checkCustomPropertiesIfEnabled e c owner repo
              repoInfo.defaultRef openPRs with ⟨res3, tr3⟩
            rw [hcp] at h
            dsimp only at h
            rw [List.append_nil] at h
            rcases List.mem_append.mp h with h2 | h2
            · exact (hFMnc h2).elim
            · rcases checkCustomPropertiesIfEnabled_creates e c owner repo
                repoInfo.defaultRef openPRs o r b2 base (by rw [hcp]; exact h2)
                with ⟨e1, e2, e3, e4⟩
              exact ⟨e1, e2, Or.inr e3, e4⟩
        · rw [hlen] at h
          simp only [if_true] at h
          rcases hcp : Checker.checkCustomPropertiesIfEnabled e c owner repo
            repoInfo.defaultRef openPRs with ⟨res3, tr3⟩
          rw [hcp] at h
          dsimp only at h
          rw [List.append_nil] at h
          rcases List.mem_append.mp h with h2 | h2
          · exact (hFMnc h2).elim
          · rcases checkCustomPropertiesIfEnabled_creates e c owner repo
              repoInfo.defaultRef openPRs o r b2 base (by rw [hcp]; exact h2)
              with ⟨e1, e2, e3, e4⟩
            exact ⟨e1, e2, Or.inr e3, e4⟩
  · rw [hskip] at h
    simp at h

/-- For each reserved branch, when it exists and no open PR uses it at pass
start, `CheckRepo` deletes it before any creation of that same branch. -/
theorem CheckRepo_scan_aux (e : Checker.Engine) (c : Checker.Client)
    (owner repo b : String) (repoInfo : Checker.Repository)
    (prs : List Checker.PullRequest) (sha : String)
    (hb : b = Checker.BranchName ∨ b = Checker.PropertiesBranchName ∨
      b = Checker.CatalogInfoBranchName)
    (hrepo : c.getRepository owner repo = Except.ok repoInfo)
    (hprs : c.listOpenPullRequests owner repo = Except.ok prs)
    (hsha : c.getBranchSHA owner repo b = Except.ok sha) (hstale : sha ≠ "")
    (hnopr : ∀ pr ∈ prs, pr.head ≠ b) :
    Checker.deleteBeforeCreateScan (Checker.isCreateBranchOf b) b
      (Checker.CheckRepo e c owner repo).2 = true := by
  unfold Checker.CheckRepo
  rw [hrepo]
  dsimp only
  cases hskip : Checker.shouldSkip e repoInfo
  · simp only [Bool.false_eq_true, if_false]
    rw [hprs]
    dsimp only
    rcases hfm : Checker.findMissingFiles e c owner repo prs with ⟨resFM, trFM⟩
    have hTrFMnc : ∀ eff ∈ trFM, Checker.isCreateBranchOf b eff = false := by
      intro eff hx
      rcases findMissingFilesAux_effects c owner repo prs
        (Checker.EnabledRules e.registry) eff
        (by rw [show Checker.findMissingFilesAux c owner repo prs
          (Checker.EnabledRules e.registry) = (resFM, trFM) from hfm]; exact hx)
        with ⟨n, hn⟩
      rw [hn]; rfl
    cases resFM with
    | error err =>
      dsimp only
      exact scan_true_of_no_create _ _ _ hTrFMnc
    | ok missing =>
      dsimp only
      have hPropsScan := checkCustomPropertiesIfEnabled_scan e c owner repo
        repoInfo.defaultRef b prs sha hb hsha hstale hnopr
      rcases hcp : Checker.checkCustomPropertiesIfEnabled e c owner repo
        repoInfo.defaultRef prs with ⟨res3, tr3⟩
      rw [hcp] at hPropsScan
      dsimp only at hPropsScan
      have htr3mem : ∀ o r b2 base, Checker.Effect.createBranch o r b2 base ∈ tr3 →
          b2 = Checker.PropertiesBranchName ∨ b2 = Checker.CatalogInfoBranchName :=
        fun o r b2 base hx => (checkCustomPropertiesIfEnabled_creates e c owner repo
          repoInfo.defaultRef prs o r b2 base (by rw [hcp]; exact hx)).2.2.1
      have hEmptyStep : Checker.deleteBeforeCreateScan (Checker.isCreateBranchOf b) b
          ((trFM ++ []) ++ tr3) = true := by
        apply scan_append_of_no_create_left
        · intro eff hx
          rw [List.append_nil] at hx
          exact hTrFMnc eff hx
        · exact hPropsScan
      cases hlen : (missing.length == 0)
      · simp only [Bool.false_eq_true, if_false]
        cases hdryE : e.dryRun
        · simp only [Bool.false_eq_true, if_false]
          rcases hco : Checker.createOrUpdatePR e c owner repo repoInfo.defaultRef
            missing prs with ⟨res2, tr2⟩
          have htr2mem : ∀ o r b2 base, Checker.Effect.createBranch o r b2 base ∈ tr2 →
              b2 = Checker.BranchName :=
            fun o r b2 base hx => (createOrUpdatePR_creates e c owner repo
              repoInfo.defaultRef missing prs o r b2 base (by rw [hco]; exact hx)).2.2.1
          cases res2 with
          | error err2 =>
            dsimp only
            rcases hb with hb1 | hb1 | hb1
            · subst hb1
              have hs2 : Checker.deleteBeforeCreateScan
                  (Checker.isCreateBranchOf Checker.BranchName) Checker.BranchName tr2 = true := by
                have hh := createOrUpdatePR_scan e c owner repo repoInfo.defaultRef missing prs
                  sha hsha hstale (by rw [findOurPR_eq]
                                      exact findPropertiesPR_none prs _ hnopr)
                rw [hco] at hh
                exact hh
              exact scan_append_of_no_create_left _ _ _ _ hTrFMnc hs2
            · subst hb1
              apply scan_true_of_no_create
              intro eff hx
              rcases List.mem_append.mp hx with h2 | h2
              · exact hTrFMnc eff h2
              · exact no_create_of_ne _ _ (by decide) tr2 htr2mem eff h2
            · subst hb1
              apply scan_true_of_no_create
              intro eff hx
              rcases List.mem_append.mp hx with h2 | h2
              · exact hTrFMnc eff h2
              · exact no_create_of_ne _ _ (by decide) tr2 htr2mem eff h2
          | ok u2 =>
            dsimp only
            rcases hb with hb1 | hb1 | hb1
            · subst hb1
              have hs2 : Checker.deleteBeforeCreateScan
                  (Checker.isCreateBranchOf Checker.BranchName) Checker.BranchName tr2 = true := by
                have hh := createOrUpdatePR_scan e c owner repo repoInfo.defaultRef missing prs
                  sha hsha hstale (by rw [findOurPR_eq]
                                      exact findPropertiesPR_none prs _ hnopr)
                rw [hco] at hh
                exact hh
              apply scan_append_of_true_left
              · exact scan_append_of_no_create_left _ _ _ _ hTrFMnc hs2
              · exact no_create_of_ne_two _ _ _ (by decide) (by decide) tr3 htr3mem
            · subst hb1
              apply scan_append_of_no_create_left
              · intro eff hx
                rcases List.mem_append.mp hx with h2 | h2
                · exact hTrFMnc eff h2
                · exact no_create_of_ne _ _ (by decide) tr2 htr2mem eff h2
              · exact hPropsScan
            · subst hb1
              apply scan_append_of_no_create_left
              · intro eff hx
                rcases List.mem_append.mp hx with h2 | h2
                · exact hTrFMnc eff h2
                · exact no_create_of_ne _ _ (by decide) tr2 htr2mem eff h2
              · exact hPropsScan
        · simp only [if_true]
          exact hEmptyStep
      · simp only [if_true]
        exact hEmptyStep
  · rfl

/-- Counterexample to C1 as stated: for this repository the reserved
branch `repo-guardian/add-catalog-info` exists (`stalesha`) and no open PR
has that head, yet the pass creates a new branch
(`repo-guardian/add-missing-files`, for the missing-files PR) before that
stale branch is deleted, so the branch is not deleted before the engine
creates *any* new branch. -/
theorem CheckRepo_stale_branch_any_create_counterexample :
    clientFull.getBranchSHA "acme" "svc" Checker.CatalogInfoBranchName =
      Except.ok "stalesha" ∧
    ("stalesha" : String) ≠ "" ∧
    clientFull.listOpenPullRequests "acme" "svc" = Except.ok [] ∧
    Checker.deleteBeforeCreateScan Checker.isCreateAnyBranch
      Checker.CatalogInfoBranchName
      (Checker.CheckRepo engineC1 clientFull "acme" "svc").2 = false :=
  ⟨rfl, by decide, rfl, rfl⟩

/-- C1 as amended: for every repository where one of the engine's reserved
branches exists and no open pull request with that head branch is present
at the start of the pass, the engine deletes that branch before it creates
any new branch *of that same name*, and every branch it creates under that
name is created from the current default-branch tip. -/
theorem CheckRepo_stale_branch_cleanup (e : Checker.Engine) (c : Checker.Client)
    (owner repo b : String) (repoInfo : Checker.Repository)
    (prs : List Checker.PullRequest) (sha : String)
    (hb : b = Checker.BranchName ∨ b = Checker.PropertiesBranchName ∨
      b = Checker.CatalogInfoBranchName)
    (hrepo : c.getRepository owner repo = Except.ok repoInfo)
    (hprs : c.listOpenPullRequests owner repo = Except.ok prs)
    (hsha : c.getBranchSHA owner repo b = Except.ok sha) (hstale : sha ≠ "")
    (hnopr : ∀ pr ∈ prs, pr.head ≠ b) :
    Checker.deleteBeforeCreateScan (Checker.isCreateBranchOf b) b
      (Checker.CheckRepo e c owner repo).2 = true ∧
    ∀ o r base, Checker.Effect.createBranch o r b base ∈
        (Checker.CheckRepo e c owner repo).2 →
      c.getBranchSHA owner repo repoInfo.defaultRef = Except.ok base := by
  refine ⟨CheckRepo_scan_aux e c owner repo b repoInfo prs sha hb hrepo hprs
    hsha hstale hnopr, ?_⟩
  intro o r base hmem
  exact (CheckRepo_creates_aux e c owner repo repoInfo hrepo o r b base hmem).2.2.2

/-- Witness for the amended C1 at the counterexample's repository: the
stale `add-catalog-info` branch is deleted before the branch of that name
is recreated. -/
theorem CheckRepo_stale_branch_cleanup_witness :
    Checker.deleteBeforeCreateScan
      (Checker.isCreateBranchOf Checker.CatalogInfoBranchName)
      Checker.CatalogInfoBranchName
      (Checker.CheckRepo engineC1 clientFull "acme" "svc").2 = true :=
  (CheckRepo_stale_branch_cleanup engineC1 clientFull "acme" "svc"
    Checker.CatalogInfoBranchName
    { owner := "acme", name := "svc", archived := false, fork := false,
      hasBranch := true, defaultRef := "main" }
    [] "stalesha"
    (Or.inr (Or.inr rfl)) rfl rfl rfl (by decide)
    (fun pr hpr => absurd hpr (List.not_mem_nil pr))).1
